import Mathlib

/-!
Verification development for the money-manager backend.

The definitions below are a shallow embedding of the reporting and CRUD
logic of the repository: the period bucketers and key derivation
(routes/transactions.js groupTransactionsByPeriod, and the income and
expense groupByPeriod helpers), the merged transaction feed
(sortTransactions and the GET transactions handler core), the category
summary (getCategorySummary), the date-range resolvers (getDateRange and
getDateRangeForPeriod), and the income, expense and transfer route
handlers together with the account balance adjustments.

Modelling conventions: JavaScript numbers carrying money amounts and
millisecond timestamps are modelled as Int; a JavaScript Date value is
modelled as a civil calendar triple JsDate with the 0-based month and
1-based day used by getFullYear, getMonth and getDate; JavaScript objects
used as maps (whose string keys preserve insertion order) are modelled as
association lists in insertion order; the ES2019 stable Array sort with a
comparator is modelled as a stable insertion sort over the comparator;
the Mongo collections are modelled as lists of records, and
findOneAndUpdate with an increment is modelled as an update of the first
matching element.
-/

/-- Civil calendar date as exposed by the JavaScript Date accessors:
year is getFullYear, month is the 0-based getMonth, day is the
1-based getDate. -/
structure JsDate where
  year : Int
  month : Nat
  day : Nat
deriving DecidableEq

/-- Model of the JavaScript String.prototype.padStart with a pad
character, as used for zero-padding period labels. -/
def padStart (s : String) (n : Nat) (c : Char) : String :=
  String.mk (List.replicate (n - s.length) c) ++ s

/-- Model of date.toISOString().split(upper T)[0], the calendar-date part
of the ISO timestamp of a date. -/
def isoDateString (d : JsDate) : String :=
  padStart (toString d.year) 4 '0' ++ "-" ++ padStart (toString (d.month + 1)) 2 '0'
    ++ "-" ++ padStart (toString d.day) 2 '0'

/-- Period bucket key derivation of groupTransactionsByPeriod in
routes/transactions.js: the switch over the period keyword producing the
bucket label from the record date. -/
def periodKey (period : String) (d : JsDate) : String :=
  if period = "monthly" then
    toString d.year ++ "-" ++ padStart (toString (d.month + 1)) 2 '0'
  else if period = "weekly" then
    toString d.year ++ "-W" ++ padStart (toString ((d.day + 6) / 7)) 2 '0'
  else if period = "yearly" then
    toString d.year
  else
    isoDateString d

/-- Period bucket key derivation of the groupByPeriod helper in the
income route file; the switch body is character for character the same as
the one in routes/transactions.js. -/
def periodKeyIncome (period : String) (d : JsDate) : String :=
  if period = "monthly" then
    toString d.year ++ "-" ++ padStart (toString (d.month + 1)) 2 '0'
  else if period = "weekly" then
    toString d.year ++ "-W" ++ padStart (toString ((d.day + 6) / 7)) 2 '0'
  else if period = "yearly" then
    toString d.year
  else
    isoDateString d

/-- Period bucket key derivation of the groupByPeriod helper in the
expense route file, again identical to the other two copies. -/
def periodKeyExpense (period : String) (d : JsDate) : String :=
  if period = "monthly" then
    toString d.year ++ "-" ++ padStart (toString (d.month + 1)) 2 '0'
  else if period = "weekly" then
    toString d.year ++ "-W" ++ padStart (toString ((d.day + 6) / 7)) 2 '0'
  else if period = "yearly" then
    toString d.year
  else
    isoDateString d

/-- A record of the merged transaction feed: an income or expense
document after the route attaches its type tag. The typ field holds the
string income or expense, dateTime the millisecond value of the combined
date plus time timestamp used by the date comparators. -/
structure Tx where
  amount : Int
  dateTime : Int
  date : JsDate
  typ : String
  category : String
  division : String
deriving DecidableEq

/-- Model of the reduce((sum, item) => sum + item.amount, 0) idiom used
for every amount total in the routes. -/
def sumAmounts (l : List Tx) : Int :=
  l.foldl (fun s t => s + t.amount) 0

/-- Insert one element into a list, placing it before the first element
y with le x y; together with insSort this models the ES2019 stable
Array sort for a comparator whose le relation is total and transitive. -/
def insertLe (le : α → α → Bool) (x : α) : List α → List α
  | [] => [x]
  | y :: ys => if le x y then x :: y :: ys else y :: insertLe le x ys

/-- Stable insertion sort over a boolean le relation, the model of the
JavaScript stable Array sort with a comparator. -/
def insSort (le : α → α → Bool) : List α → List α
  | [] => []
  | x :: xs => insertLe le x (insSort le xs)

/-- Lexicographic comparison of character lists by code point, the model
of localeCompare on the ASCII period labels. -/
def charListLe : List Char → List Char → Bool
  | [], _ => true
  | _ :: _, [] => false
  | a :: as, b :: bs =>
    if a.toNat < b.toNat then true
    else if b.toNat < a.toNat then false
    else charListLe as bs

/-- Lexicographic string comparison by code point. -/
def strLe (a b : String) : Bool :=
  charListLe a.data b.data

/-- Comparator of sortTransactions in routes/transactions.js: the switch
over the requested sort key, with the date comparators acting on the
combined date plus time timestamp and the default case equal to
date_desc. -/
def txCmp (sortBy : String) (a b : Tx) : Int :=
  if sortBy = "date_asc" then a.dateTime - b.dateTime
  else if sortBy = "date_desc" then b.dateTime - a.dateTime
  else if sortBy = "amount_asc" then a.amount - b.amount
  else if sortBy = "amount_desc" then b.amount - a.amount
  else b.dateTime - a.dateTime

/-- The sortTransactions helper: the stable sort of the merged feed by
the requested comparator. -/
def sortTransactions (txs : List Tx) (sortBy : String) : List Tx :=
  insSort (fun a b => decide (txCmp sortBy a b ≤ 0)) txs

/-- The value a given sort key compares records by: the amount for the
amount keys and the combined timestamp for the date keys and the default
case. Used to state stability of the sort. -/
def txKeyOf (sortBy : String) (t : Tx) : Int :=
  if sortBy = "amount_asc" then t.amount
  else if sortBy = "amount_desc" then t.amount
  else t.dateTime

/-- Totals object of the transactions listing response. -/
structure TotalsR where
  income : Int
  expense : Int
  balance : Int
deriving DecidableEq

/-- Core of the GET transactions handler response after the two
collections have been fetched and tagged: the merged sorted and
optionally limited transaction array, the totals over the full filtered
lists, and the counts. -/
structure TxResponse where
  transactions : List Tx
  totals : TotalsR
  countIncome : Nat
  countExpense : Nat
  countTotal : Nat
deriving DecidableEq

/-- The pure core of the GET transactions route handler in
routes/transactions.js: concatenate the tagged income and expense lists,
sort by the requested key, slice to the limit when one is given, and
compute the totals from the unlimited filtered lists. -/
def transactionsRoute (fInc fExp : List Tx) (sortBy : String) (limit : Option Nat) :
    TxResponse :=
  let allSorted := sortTransactions (fInc ++ fExp) sortBy
  let limited := match limit with
    | some n => allSorted.take n
    | none => allSorted
  let ti := sumAmounts fInc
  let te := sumAmounts fExp
  { transactions := limited
    totals := ⟨ti, te, ti - te⟩
    countIncome := fInc.length
    countExpense := fExp.length
    countTotal := limited.length }

/-- A bucket of groupTransactionsByPeriod: the period label, the income
and expense accumulators, the recomputed balance and the member
transactions. -/
structure Bucket where
  period : String
  income : Int
  expense : Int
  balance : Int
  transactions : List Tx
deriving DecidableEq

/-- One accumulation step of groupTransactionsByPeriod on a bucket: add
the amount to income or expense depending on the type tag, recompute
balance as income minus expense, and append the transaction to the
member list. -/
def bumpBucket (b : Bucket) (t : Tx) : Bucket :=
  let b' := if t.typ = "income" then { b with income := b.income + t.amount }
    else { b with expense := b.expense + t.amount }
  { b' with
    balance := b'.income - b'.expense
    transactions := b'.transactions ++ [t] }

/-- Model of grouped[key] upsert on the insertion-ordered object of
groupTransactionsByPeriod: update the existing bucket with that label or
append a fresh zero bucket at the end. -/
def bucketUpsert (key : String) (t : Tx) : List Bucket → List Bucket
  | [] => [bumpBucket ⟨key, 0, 0, 0, []⟩ t]
  | b :: bs =>
    if b.period = key then bumpBucket b t :: bs
    else b :: bucketUpsert key t bs

/-- The groupTransactionsByPeriod helper of routes/transactions.js:
fold the transactions into insertion-ordered buckets keyed by the period
label, then sort the buckets by label with the localeCompare
comparator. -/
def groupTransactionsByPeriod (txs : List Tx) (period : String) : List Bucket :=
  insSort (fun a b => strLe a.period b.period)
    (txs.foldl (fun gs t => bucketUpsert (periodKey period t.date) t gs) [])

/-- A bucket of the per-kind groupByPeriod helpers of the income and
expense route files: period label, totalAmount, count and items. -/
structure PBucket where
  period : String
  totalAmount : Int
  count : Nat
  items : List Tx
deriving DecidableEq

/-- Upsert step of the per-kind groupByPeriod helpers on their
insertion-ordered grouped object. -/
def pBucketUpsert (key : String) (t : Tx) : List PBucket → List PBucket
  | [] => [⟨key, t.amount, 1, [t]⟩]
  | b :: bs =>
    if b.period = key then
      ⟨b.period, b.totalAmount + t.amount, b.count + 1, b.items ++ [t]⟩ :: bs
    else b :: pBucketUpsert key t bs

/-- The groupByPeriod helper of the income route file: it returns
Object.values(grouped), that is the buckets in insertion order, with no
final sort. -/
def groupByPeriodIncome (incomes : List Tx) (period : String) : List PBucket :=
  incomes.foldl (fun gs t => pBucketUpsert (periodKeyIncome period t.date) t gs) []

/-- The groupByPeriod helper of the expense route file, identical in
shape to the income copy and again with no final sort. -/
def groupByPeriodExpense (expenses : List Tx) (period : String) : List PBucket :=
  expenses.foldl (fun gs t => pBucketUpsert (periodKeyExpense period t.date) t gs) []

/-- Order of first occurrence of the labels of a list: the key order in
which an insertion-ordered JavaScript object enumerates its string
keys. -/
def firstOccurrences (l : List String) : List String :=
  l.foldl (fun acc k => if acc.contains k then acc else acc ++ [k]) []

/-- Entry of the category summary of routes/transactions.js: per
category income and expense sums and the running net total. -/
structure CatEntry where
  category : String
  income : Int
  expense : Int
  total : Int
deriving DecidableEq

/-- Default of item.category to Uncategorized: the JavaScript or-else on
a string is taken on the empty string. -/
def normCat (c : String) : String :=
  if c = "" then "Uncategorized" else c

/-- Income pass of getCategorySummary on the insertion-ordered category
map: add the amount to the income sum and to the net total of the
category, creating the entry on first sight. -/
def catAddIncome (c : String) (amt : Int) : List CatEntry → List CatEntry
  | [] => [⟨c, amt, 0, amt⟩]
  | e :: es =>
    if e.category = c then
      ⟨e.category, e.income + amt, e.expense, e.total + amt⟩ :: es
    else e :: catAddIncome c amt es

/-- Expense pass of getCategorySummary: add the amount to the expense
sum and subtract it from the net total of the category. -/
def catAddExpense (c : String) (amt : Int) : List CatEntry → List CatEntry
  | [] => [⟨c, 0, amt, -amt⟩]
  | e :: es =>
    if e.category = c then
      ⟨e.category, e.income, e.expense + amt, e.total - amt⟩ :: es
    else e :: catAddExpense c amt es

/-- The getCategorySummary helper of routes/transactions.js: fold the
income list and then the expense list into the category map, then sort
the entries by descending absolute net total. -/
def getCategorySummary (incomes expenses : List Tx) : List CatEntry :=
  let m1 := incomes.foldl (fun m t => catAddIncome (normCat t.category) t.amount m) []
  let m2 := expenses.foldl (fun m t => catAddExpense (normCat t.category) t.amount m) m1
  insSort (fun a b => decide (b.total.natAbs ≤ a.total.natAbs)) m2

/-- Sum of the net totals of a category summary. -/
def sumTotals (l : List CatEntry) : Int :=
  (l.map (fun e => e.total)).sum

/-- Stored income or expense document: server-assigned id and createdAt
(milliseconds since the epoch, from the schema timestamps option) plus
the user-entered fields. Income and Expense share this shape. -/
structure Entry where
  id : Nat
  email : String
  source : String
  amount : Int
  date : String
  time : String
  notes : String
  paymentMethod : String
  division : String
  category : String
  account : String
  isTransfer : Bool
  createdAt : Int
deriving DecidableEq

/-- Account document: owner email, account name and balance. -/
structure Account where
  email : String
  accountName : String
  balance : Int
deriving DecidableEq

/-- Whether an account document matches the owner and name of a
findOneAndUpdate filter. -/
def accMatches (a : Account) (em nm : String) : Bool :=
  a.email == em && a.accountName == nm

/-- Model of Account.findOneAndUpdate with a balance increment and no
upsert: bump the balance of the first matching document, change nothing
when no document matches. -/
def adjustBalance (accs : List Account) (em nm : String) (delta : Int) : List Account :=
  match accs with
  | [] => []
  | a :: rest =>
    if accMatches a em nm then { a with balance := a.balance + delta } :: rest
    else a :: adjustBalance rest em nm delta

/-- Balance of the first account document matching owner and name, when
one exists. -/
def lookupBalance (accs : List Account) (em nm : String) : Option Int :=
  (accs.find? (fun a => accMatches a em nm)).map (fun a => a.balance)

/-- Model of Model.findById on a collection list. -/
def findById (es : List Entry) (i : Nat) : Option Entry :=
  es.find? (fun e => e.id == i)

/-- The 12 hour edit window in milliseconds. -/
def twelveHoursMs : Int := 12 * 60 * 60 * 1000

/-- The PUT income route handler: 404 when the id is absent, 403 when
createdAt is before now minus 12 hours, otherwise apply the update to
the document with that id and answer 200. -/
def updateIncomeRoute (incs : List Entry) (i : Nat) (upd : Entry → Entry) (now : Int) :
    Nat × List Entry :=
  match findById incs i with
  | none => (404, incs)
  | some e =>
    if e.createdAt < now - twelveHoursMs then (403, incs)
    else (200, incs.map (fun x => if x.id == i then upd x else x))

/-- The PUT expense route handler, identical in shape to the income
copy. -/
def updateExpenseRoute (exps : List Entry) (i : Nat) (upd : Entry → Entry) (now : Int) :
    Nat × List Entry :=
  match findById exps i with
  | none => (404, exps)
  | some e =>
    if e.createdAt < now - twelveHoursMs then (403, exps)
    else (200, exps.map (fun x => if x.id == i then upd x else x))

/-- The DELETE income route handler: the same find and window guard,
then remove the document and revert the balance of its account by
subtracting the amount when the stored account name is truthy. -/
def deleteIncomeRoute (incs : List Entry) (accs : List Account) (i : Nat) (now : Int) :
    Nat × List Entry × List Account :=
  match findById incs i with
  | none => (404, incs, accs)
  | some e =>
    if e.createdAt < now - twelveHoursMs then (403, incs, accs)
    else
      let incs' := incs.filter (fun x => !(x.id == i))
      let accs' := if e.account = "" then accs
        else adjustBalance accs e.email e.account (-e.amount)
      (200, incs', accs')

/-- The DELETE expense route handler: as for income, but the reversal
adds the amount back to the account balance. -/
def deleteExpenseRoute (exps : List Entry) (accs : List Account) (i : Nat) (now : Int) :
    Nat × List Entry × List Account :=
  match findById exps i with
  | none => (404, exps, accs)
  | some e =>
    if e.createdAt < now - twelveHoursMs then (403, exps, accs)
    else
      let exps' := exps.filter (fun x => !(x.id == i))
      let accs' := if e.account = "" then accs
        else adjustBalance accs e.email e.account e.amount
      (200, exps', accs')

/-- Request body of the income POST add and expense POST minus routes;
the account field is an Option because the balance side effect is
guarded on the raw body value before any defaulting. -/
structure EntryReq where
  email : String
  source : String
  amount : Int
  date : String
  time : String
  notes : String
  paymentMethod : String
  division : String
  category : String
  account : Option String
deriving DecidableEq

/-- JavaScript truthiness test of an optional string body field: falsy
when absent or the empty string. -/
def jsStrFalsy (o : Option String) : Bool :=
  match o with
  | none => true
  | some s => s == ""

/-- Whether the required-field validation of the creation routes
passes. -/
def entryReqValid (r : EntryReq) : Bool :=
  !(r.email == "" || r.source == "" || r.amount == 0 || r.date == ""
    || r.time == "" || r.paymentMethod == "")

/-- The document built by the creation routes: division defaults to
Personal, category to the source, account to Cash. -/
def mkEntryFromReq (r : EntryReq) (newId : Nat) (nowMs : Int) : Entry :=
  { id := newId
    email := r.email
    source := r.source
    amount := r.amount
    date := r.date
    time := r.time
    notes := r.notes
    paymentMethod := r.paymentMethod
    division := if r.division = "" then "Personal" else r.division
    category := if r.category = "" then r.source else r.category
    account := if jsStrFalsy r.account then "Cash" else r.account.getD ""
    isTransfer := false
    createdAt := nowMs }

/-- Result state of a creation route: status, the entry collection and
the account collection. -/
structure CreateResult where
  status : Nat
  entries : List Entry
  accounts : List Account
deriving DecidableEq

/-- The POST add income route handler: validate, save the defaulted
document, and increment the balance of the named account only when the
raw body account field is truthy. -/
def addIncomeRoute (incs : List Entry) (accs : List Account) (r : EntryReq)
    (newId : Nat) (nowMs : Int) : CreateResult :=
  if !entryReqValid r then ⟨400, incs, accs⟩
  else
    let e := mkEntryFromReq r newId nowMs
    let accs' := if jsStrFalsy r.account then accs
      else adjustBalance accs r.email (r.account.getD "") r.amount
    ⟨201, incs ++ [e], accs'⟩

/-- The POST minus expense route handler: as for income but the balance
of the named account is decremented. -/
def minusExpenseRoute (exps : List Entry) (accs : List Account) (r : EntryReq)
    (newId : Nat) (nowMs : Int) : CreateResult :=
  if !entryReqValid r then ⟨400, exps, accs⟩
  else
    let e := mkEntryFromReq r newId nowMs
    let accs' := if jsStrFalsy r.account then accs
      else adjustBalance accs r.email (r.account.getD "") (-r.amount)
    ⟨201, exps ++ [e], accs'⟩

/-- Request body of the POST transfer route. -/
structure TransferReq where
  email : String
  fromAccount : String
  toAccount : String
  amount : Int
  date : String
  time : String
  notes : String
deriving DecidableEq

/-- The expense document the transfer route writes: tagged isTransfer,
booked on the source account under category Transfer. -/
def transferExpenseOf (r : TransferReq) (newId : Nat) (nowMs : Int) (nowTimeStr : String) :
    Entry :=
  { id := newId
    email := r.email
    source := "Transfer to " ++ r.toAccount
    amount := r.amount
    date := r.date
    time := if r.time = "" then nowTimeStr else r.time
    notes := if r.notes = "" then "Transfer to " ++ r.toAccount else r.notes
    paymentMethod := "Transfer"
    division := "Personal"
    category := "Transfer"
    account := r.fromAccount
    isTransfer := true
    createdAt := nowMs }

/-- Result state of the transfer route over the whole store: status,
accounts, the expense collection and the income collection (which the
handler never touches). -/
structure TransferResult where
  status : Nat
  accounts : List Account
  expenses : List Entry
  incomes : List Entry
deriving DecidableEq

/-- The POST transfer route handler: validate the required fields, save
exactly one tagged expense on the source account, then decrement the
source balance and increment the destination balance. -/
def transferRoute (accs : List Account) (exps incs : List Entry) (r : TransferReq)
    (newId : Nat) (nowMs : Int) (nowTimeStr : String) : TransferResult :=
  if r.email = "" || r.fromAccount = "" || r.toAccount = "" || r.amount == 0
      || r.date = "" then
    ⟨400, accs, exps, incs⟩
  else
    let e := transferExpenseOf r newId nowMs nowTimeStr
    let exps' := exps ++ [e]
    let accs' :=
      if r.fromAccount ≠ "" && r.toAccount ≠ "" then
        adjustBalance (adjustBalance accs r.email r.fromAccount (-r.amount))
          r.email r.toAccount r.amount
      else accs
    ⟨201, accs', exps', incs⟩

/-- Whether a leap year, as the JavaScript Date calendar determines
month lengths. -/
def isLeap (y : Int) : Bool :=
  (y % 4 == 0 && !(y % 100 == 0)) || y % 400 == 0

/-- Number of days of the 0-based month m of year y. -/
def daysInMonth (y : Int) (m : Nat) : Nat :=
  if m = 1 then (if isLeap y then 29 else 28)
  else if m = 3 || m = 5 || m = 8 || m = 10 then 30
  else 31

/-- Model of the JavaScript Date constructor new Date(y, m, d) on the
argument ranges the date-range resolvers use: the month may overflow to
12 (one carry into the next year) and the day may be zero or mildly
negative (one borrow into the previous month). -/
def mkJsDate (y m d : Int) : JsDate :=
  let y1 : Int := if m ≥ 12 then y + 1 else y
  let m1 : Nat := if m ≥ 12 then (m - 12).toNat else m.toNat
  if d ≤ 0 then
    let y2 : Int := if m1 = 0 then y1 - 1 else y1
    let m2 : Nat := if m1 = 0 then 11 else m1 - 1
    ⟨y2, m2, ((daysInMonth y2 m2 : Int) + d).toNat⟩
  else ⟨y1, m1, d.toNat⟩

/-- Model of start.setDate(now.getDate() - 7): keep year and month and
set the day of month, with the JavaScript day normalization. -/
def jsSetDate (dt : JsDate) (d : Int) : JsDate :=
  mkJsDate dt.year (dt.month : Int) d

/-- A resolved period range. -/
structure DateRange where
  start : JsDate
  stop : JsDate
deriving DecidableEq

/-- The getDateRange helper of the income, expense and dashboard route
files: weekly is the trailing seven days ending now, monthly the first
through last day of the current month, yearly the current calendar year,
and any other keyword falls through to the monthly computation. -/
def getDateRange (period : String) (now : JsDate) : DateRange :=
  if period = "weekly" then
    ⟨jsSetDate now ((now.day : Int) - 7), now⟩
  else if period = "monthly" then
    ⟨mkJsDate now.year (now.month : Int) 1, mkJsDate now.year ((now.month : Int) + 1) 0⟩
  else if period = "yearly" then
    ⟨mkJsDate now.year 0 1, mkJsDate now.year 11 31⟩
  else
    ⟨mkJsDate now.year (now.month : Int) 1, mkJsDate now.year ((now.month : Int) + 1) 0⟩

/-- The getDateRangeForPeriod helper of routes/transactions.js, a
character for character copy of getDateRange. -/
def getDateRangeForPeriod (period : String) (now : JsDate) : DateRange :=
  if period = "weekly" then
    ⟨jsSetDate now ((now.day : Int) - 7), now⟩
  else if period = "monthly" then
    ⟨mkJsDate now.year (now.month : Int) 1, mkJsDate now.year ((now.month : Int) + 1) 0⟩
  else if period = "yearly" then
    ⟨mkJsDate now.year 0 1, mkJsDate now.year 11 31⟩
  else
    ⟨mkJsDate now.year (now.month : Int) 1, mkJsDate now.year ((now.month : Int) + 1) 0⟩

/-- A calendar-valid JsDate: month below twelve and day between one and
the month length. -/
def validJsDate (d : JsDate) : Prop :=
  d.month ≤ 11 ∧ 1 ≤ d.day ∧ d.day ≤ daysInMonth d.year d.month

/-- Modelled from the spec for the amended edit-window claim: the status
the update and delete routes answer, namely 404 when the id is absent,
403 when the stored createdAt is before now minus 12 hours, and 200
otherwise. -/
def editStatusSpec (found : Option Entry) (now : Int) : Nat :=
  match found with
  | none => 404
  | some e => if e.createdAt < now - twelveHoursMs then 403 else 200

/-- A default transaction record for building concrete test inputs. -/
def baseTx : Tx :=
  { amount := 0
    dateTime := 0
    date := ⟨2024, 0, 1⟩
    typ := "income"
    category := ""
    division := "Personal" }

/-- A default stored entry for building concrete test inputs. -/
def baseEntry : Entry :=
  { id := 1
    email := "u@x.com"
    source := "Salary"
    amount := 100
    date := "2024-03-15"
    time := "10:00"
    notes := ""
    paymentMethod := "UPI"
    division := "Personal"
    category := "Salary"
    account := "Cash"
    isTransfer := false
    createdAt := 0 }

/-- Entry created exactly at the window boundary: with now equal to
twelveHoursMs its createdAt equals now minus 12 hours. -/
def boundaryEntry : Entry :=
  { baseEntry with createdAt := 0 }

/-- An entry created 500 milliseconds before now equal to 1000, well
inside the window. -/
def freshEntry : Entry :=
  { baseEntry with createdAt := 500 }

/-- Income transaction of amount 100 for the merged-sort example. -/
def txI100 : Tx :=
  { baseTx with amount := 100, dateTime := 1 }

/-- Income transaction of amount 50 for the merged-sort example. -/
def txI50 : Tx :=
  { baseTx with amount := 50, dateTime := 2 }

/-- Expense transaction of amount 75 for the merged-sort example. -/
def txE75 : Tx :=
  { baseTx with amount := 75, dateTime := 3, typ := "expense" }

/-- Income dated 2024-01-20, in day-of-month week three. -/
def txJan20 : Tx :=
  { baseTx with amount := 10, date := ⟨2024, 0, 20⟩ }

/-- Income dated 2024-02-01, in day-of-month week one. -/
def txFeb01 : Tx :=
  { baseTx with amount := 20, date := ⟨2024, 1, 1⟩ }

/-- Invariant of a period bucket: the income and expense accumulators
are the sums of the member amounts of the corresponding type and the
balance is their difference. -/
def bucketInv (b : Bucket) : Prop :=
  b.income = sumAmounts (b.transactions.filter fun x => x.typ == "income")
  ∧ b.expense = sumAmounts (b.transactions.filter fun x => !(x.typ == "income"))
  ∧ b.balance = b.income - b.expense

/-- First entry of a category map with the given category key. -/
def findCat (c : String) (m : List CatEntry) : Option CatEntry :=
  m.find? (fun e => e.category == c)

/-- Sum of the amounts of the records of a list whose defaulted category
is the given one. -/
def catSumFor (l : List Tx) (c : String) : Int :=
  sumAmounts (l.filter fun t => normCat t.category == c)

theorem insertLe_perm (le : α → α → Bool) (x : α) (l : List α) :
    List.Perm (insertLe le x l) (x :: l) := by
  induction l with
  | nil => exact List.Perm.refl _
  | cons y ys ih =>
    simp only [insertLe]
    by_cases h : le x y = true
    · simp [h]
    · simp only [h, if_false]
      exact (ih.cons y).trans (List.Perm.swap x y ys)

theorem insSort_perm (le : α → α → Bool) (l : List α) :
    List.Perm (insSort le l) l := by
  induction l with
  | nil => exact List.Perm.refl _
  | cons x xs ih =>
    exact (insertLe_perm le x (insSort le xs)).trans (ih.cons x)

theorem mem_insSort (le : α → α → Bool) (l : List α) (a : α) :
    a ∈ insSort le l ↔ a ∈ l :=
  (insSort_perm le l).mem_iff

theorem pairwise_insertLe (le : α → α → Bool)
    (htot : ∀ a b, le a b = true ∨ le b a = true)
    (htrans : ∀ a b c, le a b = true → le b c = true → le a c = true)
    (x : α) (l : List α) (h : l.Pairwise fun a b => le a b = true) :
    (insertLe le x l).Pairwise fun a b => le a b = true := by
  induction l with
  | nil => simp [insertLe]
  | cons y ys ih =>
    rcases List.pairwise_cons.mp h with ⟨hy, hys⟩
    simp only [insertLe]
    by_cases hxy : le x y = true
    · simp only [hxy, if_true]
      refine List.pairwise_cons.mpr ⟨?_, h⟩
      intro b hb
      rcases List.mem_cons.mp hb with rfl | hb
      · exact hxy
      · exact htrans x y b hxy (hy b hb)
    · simp only [hxy, if_false]
      refine List.pairwise_cons.mpr ⟨?_, ih hys⟩
      intro b hb
      have hb' := (insertLe_perm le x ys).mem_iff.mp hb
      rcases List.mem_cons.mp hb' with rfl | hb2
      · rcases htot b y with hh | hh
        · exact absurd hh hxy
        · exact hh
      · exact hy b hb2

theorem pairwise_insSort (le : α → α → Bool)
    (htot : ∀ a b, le a b = true ∨ le b a = true)
    (htrans : ∀ a b c, le a b = true → le b c = true → le a c = true)
    (l : List α) :
    (insSort le l).Pairwise fun a b => le a b = true := by
  induction l with
  | nil => simp [insSort]
  | cons x xs ih => exact pairwise_insertLe le htot htrans x _ ih

theorem filter_insertLe_pos (le : α → α → Bool) (P : α → Bool) (x : α) (l : List α)
    (hx : P x = true) (hcl : ∀ y, P y = true → le x y = true) :
    (insertLe le x l).filter P = x :: l.filter P := by
  induction l with
  | nil => simp [insertLe, hx]
  | cons y ys ih =>
    simp only [insertLe]
    by_cases hxy : le x y = true
    · simp [hxy, List.filter_cons, hx]
    · have hPy : P y = false := by
        cases hPy : P y
        · rfl
        · exact absurd (hcl y hPy) hxy
      simp [hxy, List.filter_cons, hPy, ih]

theorem filter_insertLe_neg (le : α → α → Bool) (P : α → Bool) (x : α) (l : List α)
    (hx : P x = false) :
    (insertLe le x l).filter P = l.filter P := by
  induction l with
  | nil => simp [insertLe, hx]
  | cons y ys ih =>
    simp only [insertLe]
    by_cases hxy : le x y = true
    · simp [hxy, List.filter_cons, hx]
    · simp [hxy, List.filter_cons, ih]

theorem filter_insSort (le : α → α → Bool) (P : α → Bool)
    (hP : ∀ a b, P a = true → P b = true → le a b = true) (l : List α) :
    (insSort le l).filter P = l.filter P := by
  induction l with
  | nil => rfl
  | cons x xs ih =>
    simp only [insSort]
    cases hx : P x with
    | false =>
      rw [filter_insertLe_neg le P x _ hx, ih]
      simp [List.filter_cons, hx]
    | true =>
      rw [filter_insertLe_pos le P x _ hx (fun y hy => hP x y hx hy), ih]
      simp [List.filter_cons, hx]

theorem charListLe_total (a b : List Char) :
    charListLe a b = true ∨ charListLe b a = true := by
  induction a generalizing b with
  | nil => left; rfl
  | cons x xs ih =>
    cases b with
    | nil => right; rfl
    | cons y ys =>
      simp only [charListLe]
      rcases Nat.lt_trichotomy x.toNat y.toNat with h | h | h
      · left
        simp [h]
      · have h1 : ¬ x.toNat < y.toNat := by omega
        have h2 : ¬ y.toNat < x.toNat := by omega
        simpa [h1, h2] using ih ys
      · right
        simp [h]

theorem charListLe_trans (a b c : List Char)
    (hab : charListLe a b = true) (hbc : charListLe b c = true) :
    charListLe a c = true := by
  induction a generalizing b c with
  | nil => rfl
  | cons x xs ih =>
    cases b with
    | nil => simp [charListLe] at hab
    | cons y ys =>
      cases c with
      | nil => simp [charListLe] at hbc
      | cons z zs =>
        simp only [charListLe] at hab hbc ⊢
        by_cases h1 : x.toNat < y.toNat
        · by_cases h3 : y.toNat < z.toNat
          · have hxz : x.toNat < z.toNat := by omega
            simp [hxz]
          · by_cases h4 : z.toNat < y.toNat
            · rw [if_neg h3, if_pos h4] at hbc
              simp at hbc
            · have hxz : x.toNat < z.toNat := by omega
              simp [hxz]
        · by_cases h2 : y.toNat < x.toNat
          · rw [if_neg h1, if_pos h2] at hab
            simp at hab
          · rw [if_neg h1, if_neg h2] at hab
            by_cases h3 : y.toNat < z.toNat
            · have hxz : x.toNat < z.toNat := by omega
              simp [hxz]
            · by_cases h4 : z.toNat < y.toNat
              · rw [if_neg h3, if_pos h4] at hbc
                simp at hbc
              · rw [if_neg h3, if_neg h4] at hbc
                have hnxz : ¬ x.toNat < z.toNat := by omega
                have hnzx : ¬ z.toNat < x.toNat := by omega
                rw [if_neg hnxz, if_neg hnzx]
                exact ih ys zs hab hbc

theorem strLe_total (a b : String) : strLe a b = true ∨ strLe b a = true :=
  charListLe_total a.data b.data

theorem strLe_trans (a b c : String) (hab : strLe a b = true) (hbc : strLe b c = true) :
    strLe a c = true :=
  charListLe_trans a.data b.data c.data hab hbc

theorem foldl_amount_init (l : List Tx) (a : Int) :
    l.foldl (fun s t => s + t.amount) a = a + l.foldl (fun s t => s + t.amount) 0 := by
  induction l generalizing a with
  | nil => simp
  | cons t ts ih =>
    simp only [List.foldl_cons]
    rw [ih (a + t.amount), ih (0 + t.amount)]
    ring

theorem sumAmounts_cons (t : Tx) (l : List Tx) :
    sumAmounts (t :: l) = t.amount + sumAmounts l := by
  simp only [sumAmounts, List.foldl_cons]
  rw [foldl_amount_init]
  ring

theorem sumAmounts_append (l1 l2 : List Tx) :
    sumAmounts (l1 ++ l2) = sumAmounts l1 + sumAmounts l2 := by
  induction l1 with
  | nil =>
    simp only [List.nil_append]
    simp [sumAmounts]
  | cons t ts ih =>
    simp only [List.cons_append, sumAmounts_cons, ih]
    ring

theorem txCmp_total (k : String) (a b : Tx) :
    txCmp k a b ≤ 0 ∨ txCmp k b a ≤ 0 := by
  simp only [txCmp]
  split_ifs <;> omega

theorem txCmp_trans (k : String) (a b c : Tx)
    (h1 : txCmp k a b ≤ 0) (h2 : txCmp k b c ≤ 0) : txCmp k a c ≤ 0 := by
  simp only [txCmp] at h1 h2 ⊢
  split_ifs at h1 h2 ⊢ <;> omega

theorem bumpBucket_transactions (b : Bucket) (t : Tx) :
    (bumpBucket b t).transactions = b.transactions ++ [t] := by
  simp only [bumpBucket]
  by_cases ht : t.typ = "income" <;> simp [ht]

theorem bucketInv_bump (b : Bucket) (t : Tx) (h : bucketInv b) :
    bucketInv (bumpBucket b t) := by
  rcases h with ⟨h1, h2, h3⟩
  by_cases ht : t.typ = "income"
  · refine ⟨?_, ?_, ?_⟩ <;>
      simp [bucketInv, bumpBucket, ht, List.filter_append, sumAmounts_append,
        List.filter_cons, sumAmounts_cons, h1, h2, sumAmounts]
  · have ht' : (t.typ == "income") = false := by
      simpa using ht
    refine ⟨?_, ?_, ?_⟩ <;>
      simp [bucketInv, bumpBucket, ht, ht', List.filter_append, sumAmounts_append,
        List.filter_cons, sumAmounts_cons, h1, h2, sumAmounts]

theorem bucketInv_zero (key : String) : bucketInv ⟨key, 0, 0, 0, []⟩ := by
  refine ⟨?_, ?_, ?_⟩ <;> simp [bucketInv, sumAmounts]

theorem bucketInv_upsert (key : String) (t : Tx) (m : List Bucket)
    (h : ∀ b ∈ m, bucketInv b) :
    ∀ b ∈ bucketUpsert key t m, bucketInv b := by
  induction m with
  | nil =>
    intro b hb
    simp only [bucketUpsert, List.mem_singleton] at hb
    subst hb
    exact bucketInv_bump _ t (bucketInv_zero key)
  | cons c cs ih =>
    simp only [bucketUpsert]
    by_cases hc : c.period = key
    · simp only [hc, if_true]
      intro b hb
      rcases List.mem_cons.mp hb with rfl | hb2
      · exact bucketInv_bump c t (h c (List.mem_cons_self c cs))
      · exact h b (List.mem_cons_of_mem c hb2)
    · simp only [hc, if_false]
      intro b hb
      rcases List.mem_cons.mp hb with rfl | hb2
      · exact h b (List.mem_cons_self b cs)
      · exact ih (fun x hx => h x (List.mem_cons_of_mem c hx)) b hb2

theorem bucketInv_fold (p : String) (l : List Tx) (m : List Bucket)
    (h : ∀ b ∈ m, bucketInv b) :
    ∀ b ∈ l.foldl (fun gs t => bucketUpsert (periodKey p t.date) t gs) m, bucketInv b := by
  induction l generalizing m with
  | nil => exact h
  | cons t ts ih =>
    exact ih _ (bucketInv_upsert (periodKey p t.date) t m h)

theorem bucketInv_group (txs : List Tx) (p : String) :
    ∀ b ∈ groupTransactionsByPeriod txs p, bucketInv b := by
  intro b hb
  have hb2 := (mem_insSort _ _ b).mp hb
  exact bucketInv_fold p txs [] (by simp) b hb2

theorem upsert_members (key : String) (t : Tx) (m : List Bucket) (Q : Tx → Prop)
    (hm : ∀ b ∈ m, ∀ x ∈ b.transactions, Q x) (ht : Q t) :
    ∀ b ∈ bucketUpsert key t m, ∀ x ∈ b.transactions, Q x := by
  induction m with
  | nil =>
    intro b hb
    simp only [bucketUpsert, List.mem_singleton] at hb
    subst hb
    intro x hx
    rw [bumpBucket_transactions] at hx
    simp at hx
    subst hx
    exact ht
  | cons c cs ih =>
    simp only [bucketUpsert]
    by_cases hc : c.period = key
    · simp only [hc, if_true]
      intro b hb
      rcases List.mem_cons.mp hb with rfl | hb2
      · intro x hx
        rw [bumpBucket_transactions] at hx
        rcases List.mem_append.mp hx with hx1 | hx2
        · exact hm c (List.mem_cons_self c cs) x hx1
        · simp at hx2
          subst hx2
          exact ht
      · exact hm b (List.mem_cons_of_mem c hb2)
    · simp only [hc, if_false]
      intro b hb
      rcases List.mem_cons.mp hb with rfl | hb2
      · exact hm b (List.mem_cons_self b cs)
      · exact ih (fun y hy => hm y (List.mem_cons_of_mem c hy)) b hb2

theorem fold_members (p : String) (l : List Tx) (m : List Bucket) (Q : Tx → Prop)
    (hm : ∀ b ∈ m, ∀ x ∈ b.transactions, Q x) (hl : ∀ t ∈ l, Q t) :
    ∀ b ∈ l.foldl (fun gs t => bucketUpsert (periodKey p t.date) t gs) m,
      ∀ x ∈ b.transactions, Q x := by
  induction l generalizing m with
  | nil => exact hm
  | cons t ts ih =>
    exact ih _ (upsert_members (periodKey p t.date) t m Q hm
        (hl t (List.mem_cons_self t ts)))
      (fun y hy => hl y (List.mem_cons_of_mem t hy))

theorem group_members (txs : List Tx) (p : String) (Q : Tx → Prop)
    (hl : ∀ t ∈ txs, Q t) :
    ∀ b ∈ groupTransactionsByPeriod txs p, ∀ x ∈ b.transactions, Q x := by
  intro b hb
  have hb2 := (mem_insSort _ _ b).mp hb
  exact fold_members p txs [] Q (by simp) hl b hb2

theorem pBucketUpsert_labels (key : String) (t : Tx) (m : List PBucket) :
    (pBucketUpsert key t m).map (fun b => b.period) =
      if (m.map (fun b => b.period)).contains key then m.map (fun b => b.period)
      else m.map (fun b => b.period) ++ [key] := by
  induction m with
  | nil => simp [pBucketUpsert]
  | cons c cs ih =>
    simp only [pBucketUpsert]
    by_cases hc : c.period = key
    · have hk : (key == c.period) = true := by simp [hc]
      simp [hc, List.contains_cons, hk]
    · have hk : (key == c.period) = false := by
        simp
        exact fun h => hc h.symm
      simp only [hc, if_false, List.map_cons, List.contains_cons, hk, Bool.false_or]
      rw [ih]
      exact apply_ite (List.cons c.period)
        ((cs.map (fun b => b.period)).contains key = true) _ _

theorem groupByPeriodIncome_labels (l : List Tx) (p : String) :
    (groupByPeriodIncome l p).map (fun b => b.period)
      = firstOccurrences (l.map fun t => periodKeyIncome p t.date) := by
  suffices h : ∀ (l : List Tx) (m : List PBucket),
      ((l.foldl (fun gs t => pBucketUpsert (periodKeyIncome p t.date) t gs) m).map
          (fun b => b.period))
        = (l.map fun t => periodKeyIncome p t.date).foldl
            (fun acc k => if acc.contains k then acc else acc ++ [k])
            (m.map (fun b => b.period)) by
    exact h l []
  intro l
  induction l with
  | nil => intro m; rfl
  | cons t ts ih =>
    intro m
    simp only [List.foldl_cons, List.map_cons]
    rw [ih]
    congr 1
    exact pBucketUpsert_labels (periodKeyIncome p t.date) t m

theorem groupByPeriodExpense_labels (l : List Tx) (p : String) :
    (groupByPeriodExpense l p).map (fun b => b.period)
      = firstOccurrences (l.map fun t => periodKeyExpense p t.date) := by
  suffices h : ∀ (l : List Tx) (m : List PBucket),
      ((l.foldl (fun gs t => pBucketUpsert (periodKeyExpense p t.date) t gs) m).map
          (fun b => b.period))
        = (l.map fun t => periodKeyExpense p t.date).foldl
            (fun acc k => if acc.contains k then acc else acc ++ [k])
            (m.map (fun b => b.period)) by
    exact h l []
  intro l
  induction l with
  | nil => intro m; rfl
  | cons t ts ih =>
    intro m
    simp only [List.foldl_cons, List.map_cons]
    rw [ih]
    congr 1
    exact pBucketUpsert_labels (periodKeyExpense p t.date) t m

theorem findCat_catAddIncome_found (c : String) (amt : Int) (m : List CatEntry)
    (e : CatEntry) (h : findCat c m = some e) :
    findCat c (catAddIncome c amt m)
      = some ⟨e.category, e.income + amt, e.expense, e.total + amt⟩ := by
  induction m with
  | nil => simp [findCat] at h
  | cons a as ih =>
    by_cases ha : a.category = c
    · have hb : (a.category == c) = true := by simp [ha]
      have hfound : findCat c (a :: as) = some a := by
        simp [findCat, List.find?_cons_of_pos, hb]
      rw [hfound] at h
      cases h
      simp [catAddIncome, ha, findCat, List.find?_cons_of_pos, hb]
    · have hb : (a.category == c) = false := by simp [ha]
      have hskip : findCat c (a :: as) = findCat c as := by
        simp [findCat, List.find?_cons_of_neg, hb]
      rw [hskip] at h
      simp only [catAddIncome, ha, if_false]
      have hskip2 : findCat c (a :: catAddIncome c amt as)
          = findCat c (catAddIncome c amt as) := by
        simp [findCat, List.find?_cons_of_neg, hb]
      rw [hskip2]
      exact ih h

theorem findCat_catAddIncome_new (c : String) (amt : Int) (m : List CatEntry)
    (h : findCat c m = none) :
    findCat c (catAddIncome c amt m) = some ⟨c, amt, 0, amt⟩ := by
  induction m with
  | nil => simp [catAddIncome, findCat]
  | cons a as ih =>
    by_cases ha : a.category = c
    · have hb : (a.category == c) = true := by simp [ha]
      simp [findCat, List.find?_cons_of_pos, hb] at h
    · have hb : (a.category == c) = false := by simp [ha]
      have hskip : findCat c (a :: as) = findCat c as := by
        simp [findCat, List.find?_cons_of_neg, hb]
      rw [hskip] at h
      simp only [catAddIncome, ha, if_false]
      have hskip2 : findCat c (a :: catAddIncome c amt as)
          = findCat c (catAddIncome c amt as) := by
        simp [findCat, List.find?_cons_of_neg, hb]
      rw [hskip2]
      exact ih h

theorem findCat_catAddIncome_other (c c' : String) (amt : Int) (m : List CatEntry)
    (h : c' ≠ c) :
    findCat c' (catAddIncome c amt m) = findCat c' m := by
  induction m with
  | nil =>
    have hb : (c == c') = false := by
      simp
      exact fun hh => h hh.symm
    simp [catAddIncome, findCat, hb]
  | cons a as ih =>
    by_cases ha : a.category = c
    · have hb : (a.category == c') = false := by
        simp
        rw [ha]
        exact fun hh => h hh.symm
      have hb2 : (c == c') = false := by
        simp
        exact fun hh => h hh.symm
      simp only [catAddIncome, ha, if_true, findCat]
      rw [List.find?_cons_of_neg _ (by simp [hb2]),
        List.find?_cons_of_neg _ (by simp [hb])]
    · simp only [catAddIncome, ha, if_false]
      by_cases ha' : a.category = c'
      · have hb : (a.category == c') = true := by simp [ha']
        simp [findCat, List.find?_cons_of_pos, hb]
      · have hbn : ¬ (a.category == c') = true := by simp [ha']
        simp only [findCat] at ih ⊢
        rw [@List.find?_cons_of_neg CatEntry (fun e => e.category == c') a
            (catAddIncome c amt as) hbn,
          @List.find?_cons_of_neg CatEntry (fun e => e.category == c') a as hbn]
        exact ih

theorem findCat_catAddExpense_found (c : String) (amt : Int) (m : List CatEntry)
    (e : CatEntry) (h : findCat c m = some e) :
    findCat c (catAddExpense c amt m)
      = some ⟨e.category, e.income, e.expense + amt, e.total - amt⟩ := by
  induction m with
  | nil => simp [findCat] at h
  | cons a as ih =>
    by_cases ha : a.category = c
    · have hb : (a.category == c) = true := by simp [ha]
      have hfound : findCat c (a :: as) = some a := by
        simp [findCat, List.find?_cons_of_pos, hb]
      rw [hfound] at h
      cases h
      simp [catAddExpense, ha, findCat, List.find?_cons_of_pos, hb]
    · have hb : (a.category == c) = false := by simp [ha]
      have hskip : findCat c (a :: as) = findCat c as := by
        simp [findCat, List.find?_cons_of_neg, hb]
      rw [hskip] at h
      simp only [catAddExpense, ha, if_false]
      have hskip2 : findCat c (a :: catAddExpense c amt as)
          = findCat c (catAddExpense c amt as) := by
        simp [findCat, List.find?_cons_of_neg, hb]
      rw [hskip2]
      exact ih h

theorem findCat_catAddExpense_new (c : String) (amt : Int) (m : List CatEntry)
    (h : findCat c m = none) :
    findCat c (catAddExpense c amt m) = some ⟨c, 0, amt, -amt⟩ := by
  induction m with
  | nil => simp [catAddExpense, findCat]
  | cons a as ih =>
    by_cases ha : a.category = c
    · have hb : (a.category == c) = true := by simp [ha]
      simp [findCat, List.find?_cons_of_pos, hb] at h
    · have hb : (a.category == c) = false := by simp [ha]
      have hskip : findCat c (a :: as) = findCat c as := by
        simp [findCat, List.find?_cons_of_neg, hb]
      rw [hskip] at h
      simp only [catAddExpense, ha, if_false]
      have hskip2 : findCat c (a :: catAddExpense c amt as)
          = findCat c (catAddExpense c amt as) := by
        simp [findCat, List.find?_cons_of_neg, hb]
      rw [hskip2]
      exact ih h

theorem findCat_catAddExpense_other (c c' : String) (amt : Int) (m : List CatEntry)
    (h : c' ≠ c) :
    findCat c' (catAddExpense c amt m) = findCat c' m := by
  induction m with
  | nil =>
    have hb : (c == c') = false := by
      simp
      exact fun hh => h hh.symm
    simp [catAddExpense, findCat, hb]
  | cons a as ih =>
    by_cases ha : a.category = c
    · have hb : (a.category == c') = false := by
        simp
        rw [ha]
        exact fun hh => h hh.symm
      have hb2 : (c == c') = false := by
        simp
        exact fun hh => h hh.symm
      simp only [catAddExpense, ha, if_true, findCat]
      rw [List.find?_cons_of_neg _ (by simp [hb2]),
        List.find?_cons_of_neg _ (by simp [hb])]
    · simp only [catAddExpense, ha, if_false]
      by_cases ha' : a.category = c'
      · have hb : (a.category == c') = true := by simp [ha']
        simp [findCat, List.find?_cons_of_pos, hb]
      · have hbn : ¬ (a.category == c') = true := by simp [ha']
        simp only [findCat] at ih ⊢
        rw [@List.find?_cons_of_neg CatEntry (fun e => e.category == c') a
            (catAddExpense c amt as) hbn,
          @List.find?_cons_of_neg CatEntry (fun e => e.category == c') a as hbn]
        exact ih

theorem catSumFor_cons_pos (t : Tx) (ts : List Tx) (c : String)
    (h : (normCat t.category == c) = true) :
    catSumFor (t :: ts) c = t.amount + catSumFor ts c := by
  simp only [catSumFor, List.filter_cons, h, if_true]
  exact sumAmounts_cons t _

theorem catSumFor_cons_neg (t : Tx) (ts : List Tx) (c : String)
    (h : (normCat t.category == c) = false) :
    catSumFor (t :: ts) c = catSumFor ts c := by
  simp only [catSumFor, List.filter_cons, h]
  simp

theorem findCat_foldIncome (l : List Tx) (m : List CatEntry) (c : String) :
    findCat c (l.foldl (fun acc t => catAddIncome (normCat t.category) t.amount acc) m)
      = match findCat c m with
        | some e => some ⟨e.category, e.income + catSumFor l c, e.expense,
            e.total + catSumFor l c⟩
        | none =>
          if l.any (fun t => normCat t.category == c) then
            some ⟨c, catSumFor l c, 0, catSumFor l c⟩
          else none := by
  induction l generalizing m with
  | nil =>
    cases hm : findCat c m <;>
      simp [hm, catSumFor, sumAmounts]
  | cons t ts ih =>
    simp only [List.foldl_cons]
    by_cases hk : normCat t.category = c
    · have hkb : (normCat t.category == c) = true := by simp [hk]
      rw [hk]
      rw [ih (catAddIncome c t.amount m)]
      rw [catSumFor_cons_pos t ts c hkb]
      cases hm : findCat c m with
      | some e =>
        rw [findCat_catAddIncome_found c t.amount m e hm]
        simp only [List.any_cons, hkb, Bool.true_or]
        have harr : e.income + t.amount + catSumFor ts c
            = e.income + (t.amount + catSumFor ts c) := by ring
        have harr2 : e.total + t.amount + catSumFor ts c
            = e.total + (t.amount + catSumFor ts c) := by ring
        simp [harr, harr2]
      | none =>
        rw [findCat_catAddIncome_new c t.amount m hm]
        simp only [List.any_cons, hkb, Bool.true_or, if_true]
    · have hkb : (normCat t.category == c) = false := by simp [hk]
      have hne : c ≠ normCat t.category := fun hh => hk hh.symm
      rw [ih (catAddIncome (normCat t.category) t.amount m)]
      rw [findCat_catAddIncome_other (normCat t.category) c t.amount m hne]
      rw [catSumFor_cons_neg t ts c hkb]
      simp only [List.any_cons, hkb, Bool.false_or]

theorem findCat_foldExpense (l : List Tx) (m : List CatEntry) (c : String) :
    findCat c (l.foldl (fun acc t => catAddExpense (normCat t.category) t.amount acc) m)
      = match findCat c m with
        | some e => some ⟨e.category, e.income, e.expense + catSumFor l c,
            e.total - catSumFor l c⟩
        | none =>
          if l.any (fun t => normCat t.category == c) then
            some ⟨c, 0, catSumFor l c, -(catSumFor l c)⟩
          else none := by
  induction l generalizing m with
  | nil =>
    cases hm : findCat c m <;>
      simp [hm, catSumFor, sumAmounts]
  | cons t ts ih =>
    simp only [List.foldl_cons]
    by_cases hk : normCat t.category = c
    · have hkb : (normCat t.category == c) = true := by simp [hk]
      rw [hk]
      rw [ih (catAddExpense c t.amount m)]
      rw [catSumFor_cons_pos t ts c hkb]
      cases hm : findCat c m with
      | some e =>
        rw [findCat_catAddExpense_found c t.amount m e hm]
        simp only [List.any_cons, hkb, Bool.true_or]
        have harr : e.expense + t.amount + catSumFor ts c
            = e.expense + (t.amount + catSumFor ts c) := by ring
        have harr2 : e.total - t.amount - catSumFor ts c
            = e.total - (t.amount + catSumFor ts c) := by ring
        simp [harr, harr2]
      | none =>
        rw [findCat_catAddExpense_new c t.amount m hm]
        simp only [List.any_cons, hkb, Bool.true_or, if_true]
        have harr : -t.amount - catSumFor ts c = -(t.amount + catSumFor ts c) := by ring
        simp [harr]
    · have hkb : (normCat t.category == c) = false := by simp [hk]
      have hne : c ≠ normCat t.category := fun hh => hk hh.symm
      rw [ih (catAddExpense (normCat t.category) t.amount m)]
      rw [findCat_catAddExpense_other (normCat t.category) c t.amount m hne]
      rw [catSumFor_cons_neg t ts c hkb]
      simp only [List.any_cons, hkb, Bool.false_or]

theorem catAddIncome_keys (c : String) (amt : Int) (m : List CatEntry) :
    (catAddIncome c amt m).map (fun e => e.category) =
      if (m.map fun e => e.category).contains c then m.map (fun e => e.category)
      else m.map (fun e => e.category) ++ [c] := by
  induction m with
  | nil => simp [catAddIncome]
  | cons a as ih =>
    simp only [catAddIncome]
    by_cases ha : a.category = c
    · have hk : (c == a.category) = true := by simp [ha]
      simp [ha, List.contains_cons, hk]
    · have hk : (c == a.category) = false := by
        simp
        exact fun hh => ha hh.symm
      simp only [ha, if_false, List.map_cons, List.contains_cons, hk, Bool.false_or]
      rw [ih]
      exact apply_ite (List.cons a.category)
        ((as.map (fun e => e.category)).contains c = true) _ _

theorem catAddExpense_keys (c : String) (amt : Int) (m : List CatEntry) :
    (catAddExpense c amt m).map (fun e => e.category) =
      if (m.map fun e => e.category).contains c then m.map (fun e => e.category)
      else m.map (fun e => e.category) ++ [c] := by
  induction m with
  | nil => simp [catAddExpense]
  | cons a as ih =>
    simp only [catAddExpense]
    by_cases ha : a.category = c
    · have hk : (c == a.category) = true := by simp [ha]
      simp [ha, List.contains_cons, hk]
    · have hk : (c == a.category) = false := by
        simp
        exact fun hh => ha hh.symm
      simp only [ha, if_false, List.map_cons, List.contains_cons, hk, Bool.false_or]
      rw [ih]
      exact apply_ite (List.cons a.category)
        ((as.map (fun e => e.category)).contains c = true) _ _

theorem nodupKeys_catAddIncome (c : String) (amt : Int) (m : List CatEntry)
    (h : (m.map fun e => e.category).Nodup) :
    ((catAddIncome c amt m).map fun e => e.category).Nodup := by
  rw [catAddIncome_keys]
  by_cases hc : (m.map fun e => e.category).contains c = true
  · rw [if_pos hc]
    exact h
  · rw [if_neg hc]
    have hnm : c ∉ m.map fun e => e.category := by
      simpa using hc
    simp [List.nodup_append, h, hnm]

theorem nodupKeys_catAddExpense (c : String) (amt : Int) (m : List CatEntry)
    (h : (m.map fun e => e.category).Nodup) :
    ((catAddExpense c amt m).map fun e => e.category).Nodup := by
  rw [catAddExpense_keys]
  by_cases hc : (m.map fun e => e.category).contains c = true
  · rw [if_pos hc]
    exact h
  · rw [if_neg hc]
    have hnm : c ∉ m.map fun e => e.category := by
      simpa using hc
    simp [List.nodup_append, h, hnm]

theorem nodupKeys_foldIncome (l : List Tx) (m : List CatEntry)
    (h : (m.map fun e => e.category).Nodup) :
    ((l.foldl (fun acc t => catAddIncome (normCat t.category) t.amount acc) m).map
      fun e => e.category).Nodup := by
  induction l generalizing m with
  | nil => exact h
  | cons t ts ih =>
    exact ih _ (nodupKeys_catAddIncome (normCat t.category) t.amount m h)

theorem nodupKeys_foldExpense (l : List Tx) (m : List CatEntry)
    (h : (m.map fun e => e.category).Nodup) :
    ((l.foldl (fun acc t => catAddExpense (normCat t.category) t.amount acc) m).map
      fun e => e.category).Nodup := by
  induction l generalizing m with
  | nil => exact h
  | cons t ts ih =>
    exact ih _ (nodupKeys_catAddExpense (normCat t.category) t.amount m h)

theorem findCat_of_mem (m : List CatEntry) (e : CatEntry) (hm : e ∈ m)
    (hnd : (m.map fun x => x.category).Nodup) :
    findCat e.category m = some e := by
  induction m with
  | nil => cases hm
  | cons a as ih =>
    rcases List.mem_cons.mp hm with rfl | h2
    · have hb : (e.category == e.category) = true := by simp
      simp [findCat, List.find?_cons_of_pos, hb]
    · rw [List.map_cons] at hnd
      have hnd2 := List.nodup_cons.mp hnd
      have hne : a.category ≠ e.category := by
        intro heq
        exact hnd2.1 (heq ▸ List.mem_map_of_mem (fun x => x.category) h2)
      have hb : ¬ (a.category == e.category) = true := by simp [hne]
      simp only [findCat] at ih ⊢
      rw [@List.find?_cons_of_neg CatEntry (fun x => x.category == e.category) a as hb]
      exact ih h2 hnd2.2

theorem sumTotals_catAddIncome (c : String) (amt : Int) (m : List CatEntry) :
    sumTotals (catAddIncome c amt m) = sumTotals m + amt := by
  induction m with
  | nil => simp [catAddIncome, sumTotals]
  | cons a as ih =>
    simp only [catAddIncome]
    by_cases ha : a.category = c
    · simp [ha, sumTotals]
      ring
    · simp only [ha, if_false, sumTotals, List.map_cons, List.sum_cons]
      simp only [sumTotals] at ih
      rw [ih]
      ring

theorem sumTotals_catAddExpense (c : String) (amt : Int) (m : List CatEntry) :
    sumTotals (catAddExpense c amt m) = sumTotals m - amt := by
  induction m with
  | nil => simp [catAddExpense, sumTotals]
  | cons a as ih =>
    simp only [catAddExpense]
    by_cases ha : a.category = c
    · simp [ha, sumTotals]
      ring
    · simp only [ha, if_false, sumTotals, List.map_cons, List.sum_cons]
      simp only [sumTotals] at ih
      rw [ih]
      ring

theorem sumTotals_foldIncome (l : List Tx) (m : List CatEntry) :
    sumTotals (l.foldl (fun acc t => catAddIncome (normCat t.category) t.amount acc) m)
      = sumTotals m + sumAmounts l := by
  induction l generalizing m with
  | nil => simp [sumAmounts]
  | cons t ts ih =>
    simp only [List.foldl_cons]
    rw [ih, sumTotals_catAddIncome, sumAmounts_cons]
    ring

theorem sumTotals_foldExpense (l : List Tx) (m : List CatEntry) :
    sumTotals (l.foldl (fun acc t => catAddExpense (normCat t.category) t.amount acc) m)
      = sumTotals m - sumAmounts l := by
  induction l generalizing m with
  | nil => simp [sumAmounts]
  | cons t ts ih =>
    simp only [List.foldl_cons]
    rw [ih, sumTotals_catAddExpense, sumAmounts_cons]
    ring

theorem accMatches_balance_update (a : Account) (x : Int) (em nm : String) :
    accMatches { a with balance := x } em nm = accMatches a em nm := rfl

theorem lookupBalance_adjust_same (accs : List Account) (em nm : String) (delta : Int) :
    lookupBalance (adjustBalance accs em nm delta) em nm
      = (lookupBalance accs em nm).map (fun b => b + delta) := by
  induction accs with
  | nil => rfl
  | cons a rest ih =>
    simp only [adjustBalance]
    by_cases hm : accMatches a em nm = true
    · rw [if_pos hm]
      simp only [lookupBalance]
      rw [@List.find?_cons_of_pos Account (fun x => accMatches x em nm) _ rest
          (by exact hm),
        @List.find?_cons_of_pos Account (fun x => accMatches x em nm) a rest hm]
      rfl
    · rw [if_neg hm]
      simp only [lookupBalance]
      rw [@List.find?_cons_of_neg Account (fun x => accMatches x em nm) a
          (adjustBalance rest em nm delta) hm,
        @List.find?_cons_of_neg Account (fun x => accMatches x em nm) a rest hm]
      exact ih

theorem lookupBalance_adjust_other (accs : List Account) (em nm nm' : String)
    (delta : Int) (h : nm' ≠ nm) :
    lookupBalance (adjustBalance accs em nm delta) em nm' = lookupBalance accs em nm' := by
  induction accs with
  | nil => rfl
  | cons a rest ih =>
    simp only [adjustBalance]
    by_cases hm : accMatches a em nm = true
    · have hname : a.accountName = nm := by
        have h2 := (Bool.and_eq_true _ _).mp hm
        exact beq_iff_eq.mp h2.2
      have hmiss : ¬ accMatches a em nm' = true := by
        intro hcon
        have h2 := (Bool.and_eq_true _ _).mp hcon
        exact h ((beq_iff_eq.mp h2.2).symm.trans hname)
      rw [if_pos hm]
      simp only [lookupBalance]
      rw [@List.find?_cons_of_neg Account (fun x => accMatches x em nm') _ rest
          (by exact hmiss),
        @List.find?_cons_of_neg Account (fun x => accMatches x em nm') a rest hmiss]
    · rw [if_neg hm]
      simp only [lookupBalance]
      by_cases hm' : accMatches a em nm' = true
      · rw [@List.find?_cons_of_pos Account (fun x => accMatches x em nm') a
            (adjustBalance rest em nm delta) hm',
          @List.find?_cons_of_pos Account (fun x => accMatches x em nm') a rest hm']
      · rw [@List.find?_cons_of_neg Account (fun x => accMatches x em nm') a
            (adjustBalance rest em nm delta) hm',
          @List.find?_cons_of_neg Account (fun x => accMatches x em nm') a rest hm']
        exact ih

theorem daysInMonth_ge_28 (y : Int) (m : Nat) : 28 ≤ daysInMonth y m := by
  simp only [daysInMonth]
  split_ifs <;> omega

theorem daysInMonth_le_31 (y : Int) (m : Nat) : daysInMonth y m ≤ 31 := by
  simp only [daysInMonth]
  split_ifs <;> omega

theorem mkJsDate_plain (y : Int) (m d : Nat) (hm : m ≤ 11) (hd : 1 ≤ d) :
    mkJsDate y (m : Int) (d : Int) = ⟨y, m, d⟩ := by
  have h12 : ¬ ((m : Int) ≥ 12) := by omega
  have hd0 : ¬ ((d : Int) ≤ 0) := by omega
  simp only [mkJsDate, h12, hd0, if_false]
  simp

theorem mkJsDate_month_end (y : Int) (m : Nat) (hm : m ≤ 11) :
    mkJsDate y ((m : Int) + 1) 0 = ⟨y, m, daysInMonth y m⟩ := by
  by_cases h12 : ((m : Int) + 1) ≥ 12
  · have hm11 : m = 11 := by omega
    subst hm11
    simp only [mkJsDate, h12, if_true]
    norm_num
  · have hmlt : m + 1 ≤ 11 := by omega
    simp only [mkJsDate, h12, if_false]
    have hz : ((0 : Int) ≤ 0) = True := by simp
    simp only [le_refl, if_true]
    have hm1 : ((m : Int) + 1).toNat = m + 1 := by omega
    rw [hm1]
    have hne : ¬ (m + 1 = 0) := by omega
    simp only [hne, if_false]
    simp

theorem jsSetDate_ge8 (dt : JsDate) (h8 : 8 ≤ dt.day) (hm : dt.month ≤ 11) :
    jsSetDate dt ((dt.day : Int) - 7) = ⟨dt.year, dt.month, dt.day - 7⟩ := by
  have h12 : ¬ ((dt.month : Int) ≥ 12) := by omega
  have hd0 : ¬ (((dt.day : Int) - 7) ≤ 0) := by omega
  simp only [jsSetDate, mkJsDate, h12, hd0, if_false]
  simp only [JsDate.mk.injEq]
  refine ⟨?_, ?_, ?_⟩ <;> first | trivial | omega

theorem jsSetDate_borrow (dt : JsDate) (h7 : dt.day ≤ 7) (h1 : 1 ≤ dt.day)
    (hm : 1 ≤ dt.month) (hm11 : dt.month ≤ 11) :
    jsSetDate dt ((dt.day : Int) - 7)
      = ⟨dt.year, dt.month - 1, daysInMonth dt.year (dt.month - 1) + dt.day - 7⟩ := by
  have h12 : ¬ ((dt.month : Int) ≥ 12) := by omega
  have hd0 : (((dt.day : Int) - 7) ≤ 0) := by omega
  simp only [jsSetDate, mkJsDate, h12, if_false, hd0, if_true]
  have hmn : (dt.month : Int).toNat = dt.month := by omega
  rw [hmn]
  have hne : ¬ (dt.month = 0) := by omega
  simp only [hne, if_false]
  simp only [JsDate.mk.injEq]
  have hd28 := daysInMonth_ge_28 dt.year (dt.month - 1)
  refine ⟨?_, ?_, ?_⟩ <;> first | trivial | omega

theorem jsSetDate_borrow_jan (dt : JsDate) (h7 : dt.day ≤ 7) (h1 : 1 ≤ dt.day)
    (hm : dt.month = 0) :
    jsSetDate dt ((dt.day : Int) - 7) = ⟨dt.year - 1, 11, 31 + dt.day - 7⟩ := by
  have h12 : ¬ ((dt.month : Int) ≥ 12) := by
    rw [hm]
    omega
  have hd0 : (((dt.day : Int) - 7) ≤ 0) := by omega
  simp only [jsSetDate, mkJsDate, h12, if_false, hd0, if_true]
  have hmn : (dt.month : Int).toNat = 0 := by omega
  rw [hmn]
  simp only [if_true]
  simp only [JsDate.mk.injEq]
  have h31 : daysInMonth (dt.year - 1) 11 = 31 := by norm_num [daysInMonth]
  rw [h31]
  refine ⟨?_, ?_, ?_⟩ <;> first | trivial | omega

theorem txCmp_le_of_key_eq (k : String) (a b : Tx) (h : txKeyOf k a = txKeyOf k b) :
    txCmp k a b ≤ 0 := by
  by_cases h1 : k = "date_asc"
  · simp [txCmp, txKeyOf, h1] at h ⊢
    omega
  · by_cases h2 : k = "date_desc"
    · simp [txCmp, txKeyOf, h1, h2] at h ⊢
      omega
    · by_cases h3 : k = "amount_asc"
      · simp [txCmp, txKeyOf, h1, h2, h3] at h ⊢
        omega
      · by_cases h4 : k = "amount_desc"
        · simp [txCmp, txKeyOf, h1, h2, h3, h4] at h ⊢
          omega
        · simp [txCmp, txKeyOf, h1, h2, h3, h4] at h ⊢
          omega

theorem txCmp_unknown_eq_default (k : String) (h1 : k ≠ "date_asc") (h2 : k ≠ "date_desc")
    (h3 : k ≠ "amount_asc") (h4 : k ≠ "amount_desc") (a b : Tx) :
    txCmp k a b = txCmp "date_desc" a b := by
  simp [txCmp, h1, h2, h3, h4]

/-- Claim C2: for every input sequence of typed transactions and every
period keyword, every bucket of groupTransactionsByPeriod satisfies
balance equal to income minus expense, where income is the sum of the
amounts of the income-typed members and expense the sum of the amounts
of the expense-typed members. -/
theorem claim2_bucket_balance (txs : List Tx) (p : String) (b : Bucket)
    (hb : b ∈ groupTransactionsByPeriod txs p)
    (htyped : ∀ t ∈ txs, t.typ = "income" ∨ t.typ = "expense") :
    b.balance = b.income - b.expense
  ∧ b.income = sumAmounts (b.transactions.filter fun x => x.typ == "income")
  ∧ b.expense = sumAmounts (b.transactions.filter fun x => x.typ == "expense") := by
  rcases bucketInv_group txs p b hb with ⟨h1, h2, h3⟩
  refine ⟨h3, h1, ?_⟩
  rw [h2]
  congr 1
  apply List.filter_congr
  intro x hx
  rcases group_members txs p (fun t => t.typ = "income" ∨ t.typ = "expense")
      htyped b hb x hx with hxi | hxe
  · simp [hxi]
  · simp [hxe]

/-- Witness for C2 at a concrete one-element input. -/
theorem claim2_witness :
    (⟨"2024-01", 100, 0, 100, [txI100]⟩ : Bucket).balance
      = (⟨"2024-01", 100, 0, 100, [txI100]⟩ : Bucket).income
        - (⟨"2024-01", 100, 0, 100, [txI100]⟩ : Bucket).expense :=
  (claim2_bucket_balance [txI100] "monthly" ⟨"2024-01", 100, 0, 100, [txI100]⟩
    (by decide) (by decide)).1

/-- Claim C3: in the combined transactions listing the totals are the
sums over the full filtered lists and balance is their difference; the
totals are identical for every value of the limit parameter, and the
limit truncates the transaction array only after sorting. -/
theorem claim3_totals_limit (fInc fExp : List Tx) (k : String)
    (l1 l2 : Option Nat) (n : Nat) :
    (transactionsRoute fInc fExp k l1).totals = (transactionsRoute fInc fExp k l2).totals
  ∧ (transactionsRoute fInc fExp k l1).totals.income = sumAmounts fInc
  ∧ (transactionsRoute fInc fExp k l1).totals.expense = sumAmounts fExp
  ∧ (transactionsRoute fInc fExp k l1).totals.balance
      = (transactionsRoute fInc fExp k l1).totals.income
        - (transactionsRoute fInc fExp k l1).totals.expense
  ∧ (transactionsRoute fInc fExp k (some n)).transactions
      = (sortTransactions (fInc ++ fExp) k).take n
  ∧ (transactionsRoute fInc fExp k none).transactions
      = sortTransactions (fInc ++ fExp) k :=
  ⟨rfl, rfl, rfl, rfl, rfl, rfl⟩

/-- Claim C5: the period bucket key derivation, identical in the
combined and in the per-kind helpers: monthly gives year dash
zero-padded month, weekly gives year dash W and the zero-padded day-of-
month week number ceil(day / 7), yearly gives the year, anything else
the ISO date; on 2024-03-15 monthly gives 2024-03 and weekly 2024-W03. -/
theorem claim5_period_keys (p : String) (d : JsDate) :
    periodKeyIncome p d = periodKey p d
  ∧ periodKeyExpense p d = periodKey p d
  ∧ periodKey "monthly" d
      = toString d.year ++ "-" ++ padStart (toString (d.month + 1)) 2 '0'
  ∧ periodKey "weekly" d
      = toString d.year ++ "-W" ++ padStart (toString ((d.day + 6) / 7)) 2 '0'
  ∧ periodKey "yearly" d = toString d.year
  ∧ (p ≠ "monthly" → p ≠ "weekly" → p ≠ "yearly" → periodKey p d = isoDateString d)
  ∧ periodKey "monthly" ⟨2024, 2, 15⟩ = "2024-03"
  ∧ periodKey "weekly" ⟨2024, 2, 15⟩ = "2024-W03" := by
  refine ⟨rfl, rfl, by simp [periodKey], by simp [periodKey], by simp [periodKey],
    ?_, by decide, by decide⟩
  intro h1 h2 h3
  simp [periodKey, h1, h2, h3]

/-- Witness for C5 instantiating the unrecognized-keyword case. -/
theorem claim5_witness :
    periodKey "daily" ⟨2024, 2, 15⟩ = isoDateString ⟨2024, 2, 15⟩ :=
  (claim5_period_keys "daily" ⟨2024, 2, 15⟩).2.2.2.2.2.1
    (by decide) (by decide) (by decide)

/-- Claim C6: the merged feed is the concatenation of the tagged income
and expense lists followed by a stable sort by the requested key: the
sort permutes the concatenation, orders it by the comparator, preserves
the relative order of records with equal sort keys, falls back to
date_desc on any unrecognized key, and on incomes 100 and 50 with
expense 75 the amount_desc order is 100, 75, 50. -/
theorem claim6_merged_sort (incomes expenses txs : List Tx) (k other : String) (v : Int) :
    List.Perm (sortTransactions (incomes ++ expenses) k) (incomes ++ expenses)
  ∧ (sortTransactions (incomes ++ expenses) k).Pairwise (fun a b => txCmp k a b ≤ 0)
  ∧ (sortTransactions txs k).filter (fun t => txKeyOf k t == v)
      = txs.filter (fun t => txKeyOf k t == v)
  ∧ (other ≠ "date_asc" → other ≠ "date_desc" → other ≠ "amount_asc" →
      other ≠ "amount_desc" → sortTransactions txs other = sortTransactions txs "date_desc")
  ∧ (sortTransactions [txI100, txI50, txE75] "amount_desc").map (fun t => t.amount)
      = [100, 75, 50] := by
  refine ⟨insSort_perm _ _, ?_, ?_, ?_, by decide⟩
  · have hp := pairwise_insSort (fun a b => decide (txCmp k a b ≤ 0))
      (fun a b => by
        rcases txCmp_total k a b with h | h
        · exact Or.inl (decide_eq_true h)
        · exact Or.inr (decide_eq_true h))
      (fun a b c h1 h2 => decide_eq_true
        (txCmp_trans k a b c (of_decide_eq_true h1) (of_decide_eq_true h2)))
      (incomes ++ expenses)
    exact hp.imp (fun h => of_decide_eq_true h)
  · apply filter_insSort
    intro a b ha hb
    have hva : txKeyOf k a = v := by simpa using ha
    have hvb : txKeyOf k b = v := by simpa using hb
    exact decide_eq_true (txCmp_le_of_key_eq k a b (hva.trans hvb.symm))
  · intro h1 h2 h3 h4
    have hle : (fun a b => decide (txCmp other a b ≤ 0))
        = (fun a b => decide (txCmp "date_desc" a b ≤ 0)) := by
      funext a b
      rw [txCmp_unknown_eq_default other h1 h2 h3 h4]
    simp only [sortTransactions]
    rw [hle]

/-- Witness for C6 instantiating the unrecognized-key fallback. -/
theorem claim6_witness :
    sortTransactions [txI100, txI50] "bogus" = sortTransactions [txI100, txI50] "date_desc" :=
  (claim6_merged_sort [] [] [txI100, txI50] "bogus" "bogus" 0).2.2.2.1
    (by decide) (by decide) (by decide) (by decide)

/-- Counterexample to claim C7 as stated: on the per-kind income
grouping surface, two records dated 2024-01-20 and 2024-02-01 produce
the weekly labels 2024-W03 and then 2024-W01, which is not ascending. -/
theorem claim7_counterexample :
    ¬ List.Pairwise (fun a b => strLe a.period b.period = true)
      (groupByPeriodIncome [txJan20, txFeb01] "weekly") := by decide

/-- Claim C7 as amended: the combined groupTransactionsByPeriod emits
its buckets sorted ascending by label; the per-kind income and expense
groupByPeriod helpers instead emit buckets in order of first occurrence
of each label in their input, which is not sorted in general. -/
theorem claim7_amended (txs incs exps : List Tx) (p : String) :
    (groupTransactionsByPeriod txs p).Pairwise (fun a b => strLe a.period b.period = true)
  ∧ (groupByPeriodIncome incs p).map (fun b => b.period)
      = firstOccurrences (incs.map fun t => periodKeyIncome p t.date)
  ∧ (groupByPeriodExpense exps p).map (fun b => b.period)
      = firstOccurrences (exps.map fun t => periodKeyExpense p t.date) := by
  refine ⟨?_, groupByPeriodIncome_labels incs p, groupByPeriodExpense_labels exps p⟩
  exact pairwise_insSort (fun a b : Bucket => strLe a.period b.period)
    (fun a b => strLe_total a.period b.period)
    (fun a b c => strLe_trans a.period b.period c.period) _

/-- Counterexample to claim C1 as stated: an entry whose createdAt
equals exactly now minus twelve hours is not strictly inside the window
claimed by canEdit, yet the update and delete routes perform the
mutation and answer 200 instead of 403. -/
theorem claim1_counterexample :
    ¬ (boundaryEntry.createdAt > twelveHoursMs - twelveHoursMs)
  ∧ (updateIncomeRoute [boundaryEntry] 1 (fun e => e) twelveHoursMs).1 = 200
  ∧ (updateExpenseRoute [boundaryEntry] 1 (fun e => e) twelveHoursMs).1 = 200
  ∧ (deleteIncomeRoute [boundaryEntry] [] 1 twelveHoursMs).1 = 200
  ∧ (deleteExpenseRoute [boundaryEntry] [] 1 twelveHoursMs).1 = 200 := by
  decide

/-- Claim C1 as amended: for updates and deletes of income and expense
entries, the status is 404 when the id is absent, 403 when the stored
createdAt is strictly before now minus twelve hours, and 200 otherwise;
a non-200 answer leaves the collections and balances unchanged, and in
the 200 case the mutation is performed. Editability is thus decided by
createdAt being at least now minus twelve hours, not strictly greater. -/
theorem claim1_amended (incs exps : List Entry) (accs : List Account) (i : Nat)
    (upd : Entry → Entry) (now : Int) :
    (updateIncomeRoute incs i upd now).1 = editStatusSpec (findById incs i) now
  ∧ (updateExpenseRoute exps i upd now).1 = editStatusSpec (findById exps i) now
  ∧ (deleteIncomeRoute incs accs i now).1 = editStatusSpec (findById incs i) now
  ∧ (deleteExpenseRoute exps accs i now).1 = editStatusSpec (findById exps i) now
  ∧ ((updateIncomeRoute incs i upd now).1 ≠ 200 →
      (updateIncomeRoute incs i upd now).2 = incs)
  ∧ ((updateExpenseRoute exps i upd now).1 ≠ 200 →
      (updateExpenseRoute exps i upd now).2 = exps)
  ∧ ((deleteIncomeRoute incs accs i now).1 ≠ 200 →
      (deleteIncomeRoute incs accs i now).2 = (incs, accs))
  ∧ ((deleteExpenseRoute exps accs i now).1 ≠ 200 →
      (deleteExpenseRoute exps accs i now).2 = (exps, accs))
  ∧ (∀ e, findById incs i = some e → now - twelveHoursMs ≤ e.createdAt →
      updateIncomeRoute incs i upd now
        = (200, incs.map fun x => if x.id == i then upd x else x))
  ∧ (∀ e, findById exps i = some e → now - twelveHoursMs ≤ e.createdAt →
      updateExpenseRoute exps i upd now
        = (200, exps.map fun x => if x.id == i then upd x else x))
  ∧ (∀ e, findById incs i = some e → now - twelveHoursMs ≤ e.createdAt →
      deleteIncomeRoute incs accs i now
        = (200, incs.filter (fun x => !(x.id == i)),
            if e.account = "" then accs
            else adjustBalance accs e.email e.account (-e.amount)))
  ∧ (∀ e, findById exps i = some e → now - twelveHoursMs ≤ e.createdAt →
      deleteExpenseRoute exps accs i now
        = (200, exps.filter (fun x => !(x.id == i)),
            if e.account = "" then accs
            else adjustBalance accs e.email e.account e.amount)) := by
  refine ⟨?_, ?_, ?_, ?_, ?_, ?_, ?_, ?_, ?_, ?_, ?_, ?_⟩
  · cases hf : findById incs i with
    | none => simp [updateIncomeRoute, editStatusSpec, hf]
    | some e =>
      by_cases hc : e.createdAt < now - twelveHoursMs <;>
        simp [updateIncomeRoute, editStatusSpec, hf, hc]
  · cases hf : findById exps i with
    | none => simp [updateExpenseRoute, editStatusSpec, hf]
    | some e =>
      by_cases hc : e.createdAt < now - twelveHoursMs <;>
        simp [updateExpenseRoute, editStatusSpec, hf, hc]
  · cases hf : findById incs i with
    | none => simp [deleteIncomeRoute, editStatusSpec, hf]
    | some e =>
      by_cases hc : e.createdAt < now - twelveHoursMs <;>
        simp [deleteIncomeRoute, editStatusSpec, hf, hc]
  · cases hf : findById exps i with
    | none => simp [deleteExpenseRoute, editStatusSpec, hf]
    | some e =>
      by_cases hc : e.createdAt < now - twelveHoursMs <;>
        simp [deleteExpenseRoute, editStatusSpec, hf, hc]
  · intro hne
    cases hf : findById incs i with
    | none => simp [updateIncomeRoute, hf]
    | some e =>
      by_cases hc : e.createdAt < now - twelveHoursMs
      · simp [updateIncomeRoute, hf, hc]
      · exact absurd (by simp [updateIncomeRoute, hf, hc]) hne
  · intro hne
    cases hf : findById exps i with
    | none => simp [updateExpenseRoute, hf]
    | some e =>
      by_cases hc : e.createdAt < now - twelveHoursMs
      · simp [updateExpenseRoute, hf, hc]
      · exact absurd (by simp [updateExpenseRoute, hf, hc]) hne
  · intro hne
    cases hf : findById incs i with
    | none => simp [deleteIncomeRoute, hf]
    | some e =>
      by_cases hc : e.createdAt < now - twelveHoursMs
      · simp [deleteIncomeRoute, hf, hc]
      · exact absurd (by simp [deleteIncomeRoute, hf, hc]) hne
  · intro hne
    cases hf : findById exps i with
    | none => simp [deleteExpenseRoute, hf]
    | some e =>
      by_cases hc : e.createdAt < now - twelveHoursMs
      · simp [deleteExpenseRoute, hf, hc]
      · exact absurd (by simp [deleteExpenseRoute, hf, hc]) hne
  · intro e hf hle
    have hc : ¬ (e.createdAt < now - twelveHoursMs) := by omega
    simp [updateIncomeRoute, hf, hc]
  · intro e hf hle
    have hc : ¬ (e.createdAt < now - twelveHoursMs) := by omega
    simp [updateExpenseRoute, hf, hc]
  · intro e hf hle
    have hc : ¬ (e.createdAt < now - twelveHoursMs) := by omega
    simp [deleteIncomeRoute, hf, hc]
  · intro e hf hle
    have hc : ¬ (e.createdAt < now - twelveHoursMs) := by omega
    simp [deleteExpenseRoute, hf, hc]

/-- Witness for the amended C1: an entry created inside the window is
updated with status 200. -/
theorem claim1_witness :
    updateIncomeRoute [freshEntry] 1 (fun e => e) 1000 = (200, [freshEntry]) := by
  have h := (claim1_amended [freshEntry] [] [] 1 (fun e => e)
      1000).2.2.2.2.2.2.2.2.1 freshEntry (by decide) (by decide)
  exact h.trans (by decide)

/-- Claim C4: a valid transfer of amount A between two distinct existing
accounts of the owner answers 201, appends exactly one isTransfer
expense booked on the source account for amount A, creates no income
record and no other expense record, decreases the source balance by A
and increases the destination balance by A. -/
theorem claim4_transfer (accs : List Account) (exps incs : List Entry) (r : TransferReq)
    (newId : Nat) (nowMs : Int) (nowTimeStr : String) (bX bY : Int)
    (hemail : r.email ≠ "") (hfrom : r.fromAccount ≠ "") (hto : r.toAccount ≠ "")
    (hamt : r.amount ≠ 0) (hdate : r.date ≠ "") (hxy : r.fromAccount ≠ r.toAccount)
    (hX : lookupBalance accs r.email r.fromAccount = some bX)
    (hY : lookupBalance accs r.email r.toAccount = some bY) :
    (transferRoute accs exps incs r newId nowMs nowTimeStr).status = 201
  ∧ (transferRoute accs exps incs r newId nowMs nowTimeStr).expenses
      = exps ++ [transferExpenseOf r newId nowMs nowTimeStr]
  ∧ (transferExpenseOf r newId nowMs nowTimeStr).isTransfer = true
  ∧ (transferExpenseOf r newId nowMs nowTimeStr).account = r.fromAccount
  ∧ (transferExpenseOf r newId nowMs nowTimeStr).amount = r.amount
  ∧ (transferRoute accs exps incs r newId nowMs nowTimeStr).incomes = incs
  ∧ lookupBalance (transferRoute accs exps incs r newId nowMs nowTimeStr).accounts
      r.email r.fromAccount = some (bX - r.amount)
  ∧ lookupBalance (transferRoute accs exps incs r newId nowMs nowTimeStr).accounts
      r.email r.toAccount = some (bY + r.amount) := by
  have hroute : transferRoute accs exps incs r newId nowMs nowTimeStr
      = ⟨201,
          adjustBalance (adjustBalance accs r.email r.fromAccount (-r.amount))
            r.email r.toAccount r.amount,
          exps ++ [transferExpenseOf r newId nowMs nowTimeStr], incs⟩ := by
    simp [transferRoute, hemail, hfrom, hto, hamt, hdate]
  rw [hroute]
  refine ⟨rfl, rfl, rfl, rfl, rfl, rfl, ?_, ?_⟩
  · rw [lookupBalance_adjust_other _ r.email r.toAccount r.fromAccount r.amount hxy,
      lookupBalance_adjust_same, hX]
    rfl
  · rw [lookupBalance_adjust_same,
      lookupBalance_adjust_other _ r.email r.fromAccount r.toAccount (-r.amount)
        (fun h => hxy h.symm), hY]
    rfl

/-- Witness for C4 at a concrete two-account store. -/
theorem claim4_witness :
    lookupBalance (transferRoute [⟨"u@x.com", "Bank", 500⟩, ⟨"u@x.com", "Cash", 100⟩]
        [] [] ⟨"u@x.com", "Bank", "Cash", 50, "2024-03-15", "10:00", ""⟩ 7 0 "t").accounts
      "u@x.com" "Bank" = some 450
  ∧ lookupBalance (transferRoute [⟨"u@x.com", "Bank", 500⟩, ⟨"u@x.com", "Cash", 100⟩]
        [] [] ⟨"u@x.com", "Bank", "Cash", 50, "2024-03-15", "10:00", ""⟩ 7 0 "t").accounts
      "u@x.com" "Cash" = some 150 := by
  have h := claim4_transfer [⟨"u@x.com", "Bank", 500⟩, ⟨"u@x.com", "Cash", 100⟩] [] []
    ⟨"u@x.com", "Bank", "Cash", 50, "2024-03-15", "10:00", ""⟩ 7 0 "t" 500 100
    (by decide) (by decide) (by decide) (by decide) (by decide) (by decide)
    (by decide) (by decide)
  exact ⟨h.2.2.2.2.2.2.1, h.2.2.2.2.2.2.2⟩

/-- Claim C10: when the creation request body omits the account field,
the income add and expense minus routes change no account balance while
still saving the entry with account defaulted to Cash; deletion instead
always applies the balance adjustment against the stored entry account. -/
theorem claim10_account_frame (incs exps : List Entry) (accs : List Account)
    (rI rE : EntryReq) (newId : Nat) (nowMs : Int) (i : Nat) (now2 : Int)
    (hI : rI.account = none) (hE : rE.account = none) :
    (addIncomeRoute incs accs rI newId nowMs).accounts = accs
  ∧ (minusExpenseRoute exps accs rE newId nowMs).accounts = accs
  ∧ (entryReqValid rI = true →
      (addIncomeRoute incs accs rI newId nowMs).entries
        = incs ++ [mkEntryFromReq rI newId nowMs]
      ∧ (mkEntryFromReq rI newId nowMs).account = "Cash")
  ∧ (entryReqValid rE = true →
      (minusExpenseRoute exps accs rE newId nowMs).entries
        = exps ++ [mkEntryFromReq rE newId nowMs]
      ∧ (mkEntryFromReq rE newId nowMs).account = "Cash")
  ∧ (∀ e, findById incs i = some e → ¬ (e.createdAt < now2 - twelveHoursMs) →
      e.account ≠ "" →
      (deleteIncomeRoute incs accs i now2).2.2
        = adjustBalance accs e.email e.account (-e.amount))
  ∧ (∀ e, findById exps i = some e → ¬ (e.createdAt < now2 - twelveHoursMs) →
      e.account ≠ "" →
      (deleteExpenseRoute exps accs i now2).2.2
        = adjustBalance accs e.email e.account e.amount) := by
  refine ⟨?_, ?_, ?_, ?_, ?_, ?_⟩
  · by_cases hv : entryReqValid rI = true <;>
      simp [addIncomeRoute, hv, hI, jsStrFalsy]
  · by_cases hv : entryReqValid rE = true <;>
      simp [minusExpenseRoute, hv, hE, jsStrFalsy]
  · intro hv
    refine ⟨by simp [addIncomeRoute, hv], ?_⟩
    simp [mkEntryFromReq, hI, jsStrFalsy]
  · intro hv
    refine ⟨by simp [minusExpenseRoute, hv], ?_⟩
    simp [mkEntryFromReq, hE, jsStrFalsy]
  · intro e hf hc ha
    simp [deleteIncomeRoute, hf, hc, ha]
  · intro e hf hc ha
    simp [deleteExpenseRoute, hf, hc, ha]

/-- Witness for C10: a concrete account-less creation request leaves a
one-account store unchanged, and a concrete delete adjusts it. -/
theorem claim10_witness :
    (addIncomeRoute [] [⟨"u@x.com", "Cash", 100⟩]
        ⟨"u@x.com", "Salary", 100, "2024-03-15", "10:00", "", "UPI", "", "", none⟩
        7 0).accounts = [⟨"u@x.com", "Cash", 100⟩]
  ∧ (deleteIncomeRoute [freshEntry] [⟨"u@x.com", "Cash", 100⟩] 1 1000).2.2
      = adjustBalance [⟨"u@x.com", "Cash", 100⟩] freshEntry.email freshEntry.account
          (-freshEntry.amount) := by
  have h := claim10_account_frame [freshEntry] [] [⟨"u@x.com", "Cash", 100⟩]
    ⟨"u@x.com", "Salary", 100, "2024-03-15", "10:00", "", "UPI", "", "", none⟩
    ⟨"u@x.com", "Salary", 100, "2024-03-15", "10:00", "", "UPI", "", "", none⟩
    7 0 1 1000 rfl rfl
  refine ⟨?_, h.2.2.2.2.1 freshEntry (by decide) (by decide) (by decide)⟩
  have h2 := claim10_account_frame [] [] [⟨"u@x.com", "Cash", 100⟩]
    ⟨"u@x.com", "Salary", 100, "2024-03-15", "10:00", "", "UPI", "", "", none⟩
    ⟨"u@x.com", "Salary", 100, "2024-03-15", "10:00", "", "UPI", "", "", none⟩
    7 0 1 1000 rfl rfl
  exact h2.1

theorem validJsDate_mk (y : Int) (m d : Nat) (h1 : m ≤ 11) (h2 : 1 ≤ d)
    (h3 : d ≤ daysInMonth y m) : validJsDate ⟨y, m, d⟩ :=
  ⟨h1, h2, h3⟩

theorem validJsDate_monthly_pair (now : JsDate) (hv : validJsDate now) :
    validJsDate (mkJsDate now.year (now.month : Int) 1)
  ∧ validJsDate (mkJsDate now.year ((now.month : Int) + 1) 0) := by
  rcases hv with ⟨hm, hd1, hd2⟩
  have h28 := daysInMonth_ge_28 now.year now.month
  have hstart : mkJsDate now.year (now.month : Int) 1 = ⟨now.year, now.month, 1⟩ := by
    have := mkJsDate_plain now.year now.month 1 hm (le_refl 1)
    simpa using this
  have hstop := mkJsDate_month_end now.year now.month hm
  rw [hstart, hstop]
  exact ⟨validJsDate_mk _ _ _ hm (le_refl 1) (by omega),
    validJsDate_mk _ _ _ hm (by omega) (le_refl _)⟩

theorem getDateRange_valid (p : String) (now : JsDate) (hv : validJsDate now) :
    validJsDate (getDateRange p now).start ∧ validJsDate (getDateRange p now).stop := by
  have hvc := hv
  rcases hvc with ⟨hm, hd1, hd2⟩
  by_cases h1 : p = "weekly"
  · constructor
    · simp only [getDateRange, h1, if_true]
      by_cases h8 : 8 ≤ now.day
      · rw [jsSetDate_ge8 now h8 hm]
        exact validJsDate_mk _ _ _ hm (by omega) (by omega)
      · by_cases hm1 : 1 ≤ now.month
        · rw [jsSetDate_borrow now (by omega) hd1 hm1 hm]
          have h28 := daysInMonth_ge_28 now.year (now.month - 1)
          exact validJsDate_mk _ _ _ (by omega) (by omega) (by omega)
        · have hm0 : now.month = 0 := by omega
          rw [jsSetDate_borrow_jan now (by omega) hd1 hm0]
          have h31 : daysInMonth (now.year - 1) 11 = 31 := by norm_num [daysInMonth]
          exact validJsDate_mk _ _ _ (by omega) (by omega) (by rw [h31]; omega)
    · simp only [getDateRange, h1, if_true]
      exact hv
  · have hmp := validJsDate_monthly_pair now hv
    by_cases h2 : p = "monthly"
    · simp only [getDateRange, h1, if_false, h2, if_true]
      exact hmp
    · by_cases h3 : p = "yearly"
      · have hy1 : mkJsDate now.year 0 1 = ⟨now.year, 0, 1⟩ := by
          norm_num [mkJsDate]
        have hy2 : mkJsDate now.year 11 31 = ⟨now.year, 11, 31⟩ := by
          norm_num [mkJsDate]
          exact ⟨rfl, rfl⟩
        have h3a : daysInMonth now.year 0 = 31 := by norm_num [daysInMonth]
        have h3b : daysInMonth now.year 11 = 31 := by norm_num [daysInMonth]
        have hrange : getDateRange p now
            = ⟨mkJsDate now.year 0 1, mkJsDate now.year 11 31⟩ := by
          simp [getDateRange, h1, h2, h3]
        rw [hrange, hy1, hy2]
        exact ⟨validJsDate_mk _ _ _ (by omega) (le_refl 1) (by rw [h3a]; omega),
          validJsDate_mk _ _ _ (by omega) (by omega) (by rw [h3b])⟩
      · simp only [getDateRange, h1, if_false, h2, if_false, h3, if_false]
        exact hmp

/-- Claim C8: the time-range resolver is total and the two source
copies agree; yearly in 2024 yields the inclusive calendar range from
January 1 through December 31 of 2024; weekly yields the seven days
ending now, with the start exactly seven calendar days earlier; unknown
or absent keywords produce the monthly range, the first through last day
of the current month; and on a valid reference date every branch yields
valid calendar dates. -/
theorem claim8_date_range (p : String) (now : JsDate) (hv : validJsDate now) :
    getDateRangeForPeriod p now = getDateRange p now
  ∧ (now.year = 2024 → getDateRange "yearly" now = ⟨⟨2024, 0, 1⟩, ⟨2024, 11, 31⟩⟩)
  ∧ (getDateRange "weekly" now).stop = now
  ∧ (8 ≤ now.day → (getDateRange "weekly" now).start
      = ⟨now.year, now.month, now.day - 7⟩)
  ∧ (now.day ≤ 7 → 1 ≤ now.month → (getDateRange "weekly" now).start
      = ⟨now.year, now.month - 1, daysInMonth now.year (now.month - 1) + now.day - 7⟩)
  ∧ (now.day ≤ 7 → now.month = 0 → (getDateRange "weekly" now).start
      = ⟨now.year - 1, 11, 31 + now.day - 7⟩)
  ∧ (getDateRange "monthly" now).start = ⟨now.year, now.month, 1⟩
  ∧ (getDateRange "monthly" now).stop
      = ⟨now.year, now.month, daysInMonth now.year now.month⟩
  ∧ (p ≠ "weekly" → p ≠ "monthly" → p ≠ "yearly" →
      getDateRange p now = getDateRange "monthly" now)
  ∧ validJsDate (getDateRange p now).start
  ∧ validJsDate (getDateRange p now).stop := by
  rcases hv with ⟨hm, hd1, hd2⟩
  refine ⟨rfl, ?_, ?_, ?_, ?_, ?_, ?_, ?_, ?_,
    (getDateRange_valid p now ⟨hm, hd1, hd2⟩).1,
    (getDateRange_valid p now ⟨hm, hd1, hd2⟩).2⟩
  · intro h2024
    have hy1 : mkJsDate (2024 : Int) 0 1 = ⟨2024, 0, 1⟩ := by decide
    have hy2 : mkJsDate (2024 : Int) 11 31 = ⟨2024, 11, 31⟩ := by decide
    have hrg : getDateRange "yearly" now
        = ⟨mkJsDate now.year 0 1, mkJsDate now.year 11 31⟩ := by
      simp [getDateRange]
    rw [hrg, h2024, hy1, hy2]
  · simp [getDateRange]
  · intro h8
    simp only [getDateRange]
    norm_num
    exact jsSetDate_ge8 now h8 hm
  · intro h7 hm1
    simp only [getDateRange]
    norm_num
    exact jsSetDate_borrow now h7 hd1 hm1 hm
  · intro h7 hm0
    simp only [getDateRange]
    norm_num
    exact jsSetDate_borrow_jan now h7 hd1 hm0
  · have hstart : mkJsDate now.year (now.month : Int) 1 = ⟨now.year, now.month, 1⟩ := by
      have := mkJsDate_plain now.year now.month 1 hm (le_refl 1)
      simpa using this
    simp [getDateRange, hstart]
  · have hstop := mkJsDate_month_end now.year now.month hm
    simp [getDateRange, hstop]
  · intro h1 h2 h3
    simp [getDateRange, h1, h2, h3]

/-- Witness for C8 at a concrete mid-month 2024 reference date. -/
theorem claim8_witness :
    getDateRange "yearly" ⟨2024, 2, 15⟩ = ⟨⟨2024, 0, 1⟩, ⟨2024, 11, 31⟩⟩
  ∧ (getDateRange "weekly" ⟨2024, 2, 15⟩).start = ⟨2024, 2, 8⟩ := by
  have h := claim8_date_range "yearly" ⟨2024, 2, 15⟩ ⟨by decide, by decide, by decide⟩
  have h2 := claim8_date_range "weekly" ⟨2024, 2, 15⟩ ⟨by decide, by decide, by decide⟩
  exact ⟨h.2.1 rfl, h2.2.2.2.1 (by decide)⟩

/-- Claim C9: every entry of the category summary carries the income
sum and the expense sum of its defaulted category with net total equal
to their difference, the summary is sorted by descending absolute net,
and the nets add up to the overall balance of the same filtered set. -/
theorem claim9_category_summary (incomes expenses : List Tx) :
    (∀ e, e ∈ getCategorySummary incomes expenses →
        e.total = e.income - e.expense
      ∧ e.income = catSumFor incomes e.category
      ∧ e.expense = catSumFor expenses e.category)
  ∧ (getCategorySummary incomes expenses).Pairwise
      (fun a b => b.total.natAbs ≤ a.total.natAbs)
  ∧ sumTotals (getCategorySummary incomes expenses)
      = sumAmounts incomes - sumAmounts expenses := by
  refine ⟨?_, ?_, ?_⟩
  · intro e he
    have he2 : e ∈ expenses.foldl (fun m t => catAddExpense (normCat t.category) t.amount m)
        (incomes.foldl (fun m t => catAddIncome (normCat t.category) t.amount m) []) :=
      (mem_insSort _ _ e).mp he
    have hnd : ((expenses.foldl (fun m t => catAddExpense (normCat t.category) t.amount m)
          (incomes.foldl (fun m t => catAddIncome (normCat t.category) t.amount m) [])).map
        fun x => x.category).Nodup :=
      nodupKeys_foldExpense expenses _ (nodupKeys_foldIncome incomes [] (by simp))
    have hfind := findCat_of_mem _ e he2 hnd
    have hchar1 : findCat e.category
        (incomes.foldl (fun m t => catAddIncome (normCat t.category) t.amount m) [])
        = (if incomes.any (fun t => normCat t.category == e.category) then
            some ⟨e.category, catSumFor incomes e.category, 0, catSumFor incomes e.category⟩
          else none) := by
      have h := findCat_foldIncome incomes [] e.category
      simpa using h
    have hchar := findCat_foldExpense expenses
      (incomes.foldl (fun m t => catAddIncome (normCat t.category) t.amount m) [])
      e.category
    rw [hchar1] at hchar
    by_cases hia : incomes.any (fun t => normCat t.category == e.category) = true
    · rw [if_pos hia] at hchar
      simp only at hchar
      rw [hfind] at hchar
      have he3 := Option.some.inj hchar
      rw [he3]
      refine ⟨by ring, rfl, by simp⟩
    · rw [if_neg hia] at hchar
      simp only at hchar
      have hzero : catSumFor incomes e.category = 0 := by
        have hfe : incomes.filter (fun t => normCat t.category == e.category) = [] := by
          rw [List.filter_eq_nil_iff]
          intro t ht
          have := List.any_eq_false.mp (Bool.eq_false_iff.mpr hia) t ht
          simpa using this
        simp [catSumFor, hfe, sumAmounts]
      by_cases hea : expenses.any (fun t => normCat t.category == e.category) = true
      · rw [if_pos hea] at hchar
        rw [hfind] at hchar
        have he3 := Option.some.inj hchar
        rw [he3]
        refine ⟨by ring, ?_, rfl⟩
        rw [hzero]
      · rw [if_neg hea] at hchar
        rw [hfind] at hchar
        cases hchar
  · have hp := pairwise_insSort (fun a b : CatEntry => decide (b.total.natAbs ≤ a.total.natAbs))
      (fun a b => by
        rcases Nat.le_total b.total.natAbs a.total.natAbs with h | h
        · exact Or.inl (decide_eq_true h)
        · exact Or.inr (decide_eq_true h))
      (fun a b c h1 h2 => decide_eq_true
        (Nat.le_trans (of_decide_eq_true h2) (of_decide_eq_true h1)))
      (expenses.foldl (fun m t => catAddExpense (normCat t.category) t.amount m)
        (incomes.foldl (fun m t => catAddIncome (normCat t.category) t.amount m) []))
    exact hp.imp (fun h => of_decide_eq_true h)
  · have hperm := insSort_perm
      (fun a b : CatEntry => decide (b.total.natAbs ≤ a.total.natAbs))
      (expenses.foldl (fun m t => catAddExpense (normCat t.category) t.amount m)
        (incomes.foldl (fun m t => catAddIncome (normCat t.category) t.amount m) []))
    have hsum := (hperm.map (fun e => e.total)).sum_eq
    simp only [getCategorySummary, sumTotals]
    rw [hsum]
    have h1 := sumTotals_foldExpense expenses
      (incomes.foldl (fun m t => catAddIncome (normCat t.category) t.amount m) [])
    have h2 := sumTotals_foldIncome incomes []
    simp only [sumTotals] at h1 h2
    rw [h1, h2]
    simp

/-- Witness for C9 at a concrete one-record input with an empty
category defaulted to Uncategorized. -/
theorem claim9_witness :
    (⟨"Uncategorized", 100, 0, 100⟩ : CatEntry).total
      = (⟨"Uncategorized", 100, 0, 100⟩ : CatEntry).income
        - (⟨"Uncategorized", 100, 0, 100⟩ : CatEntry).expense
  ∧ (⟨"Uncategorized", 100, 0, 100⟩ : CatEntry).income
      = catSumFor [txI100] (⟨"Uncategorized", 100, 0, 100⟩ : CatEntry).category :=
  have h := (claim9_category_summary [txI100] []).1
    ⟨"Uncategorized", 100, 0, 100⟩ (by decide)
  ⟨h.1, h.2.1⟩
